import Mathlib

/-!
FourSemi fs18xx smart-PA driver glue: `sound/soc/codecs/fs18xx/fsm_i2c.c`.

A shallow embedding of the register transport (`fsm_i2c_reg_read`,
`fsm_i2c_reg_write`, `fsm_i2c_bulkwrite`), the calibration store
(`fsm_check_re25_valid`, `fsm_read_efsdata`, `fsm_write_efsdata`), the
supply-rail switch (`fsm_vddd_on`) and the health monitor
(`fsm_set_monitor`, `fsm_work_monitor`).

Conventions.
* C `int` values are `Int`; the error numbers are the ones of
  `errno-base.h`; a function that returns `-EINVAL` returns `- EINVAL` here.
* A pointer argument that the C code tests against `NULL` is an `Option`.
* `FSM_I2C_RETRY` and `STRING_LEN_MAX` come from `fsm_public.h`, which is
  not part of the sources at hand; they are parameters of the functions
  that use them.
* Character buffers are `List Char`; memory that a store touches past the
  end of a buffer is modelled by letting the list grow, so an overrun is
  visible as a buffer longer than its declared size.  A function whose own
  array has been overrun has no defined result (`none`).
-/

set_option maxRecDepth 100000

namespace Fsm

/-! ## Error numbers -/

def ENOENT : Int := 2
def EIO : Int := 5
def ENOMEM : Int := 12
def EINVAL : Int := 22

/-! ## Calibration data (`struct fsm_cal_data`, `struct fsm_calib_v2`) -/

/-- One calibration sample (`struct fsm_cal_data`, declared in
`fsm_public.h`, which is not among the sources at hand).  The fields are the
ones `fsm_i2c.c` touches; it prints and scans all of them as C `int`s (`%d`). -/
structure fsm_cal_data where
  channel : Int
  cal_tempr : Int
  cal_re : Int
  re_min : Int
  re_max : Int
  calib_pass : Bool
deriving DecidableEq

/-- The calibration set: a count and the sample array.  The array has a fixed
capacity in C (`cal_data[FSM_DEV_MAX]`); here it is the length of the list. -/
structure fsm_calib_v2 where
  dev_count : Int
  cal_data : List fsm_cal_data
deriving DecidableEq

/-! ## Formatting: `snprintf(dst, size, "[%d,%d,%d]", ...)` -/

def NUL : Char := Char.ofNat 0

def digit_char (d : Nat) : Char := Char.ofNat (48 + d)

/-- Decimal digits of an unsigned number, most significant first, as the
kernel's `number()` produces them (one digit per division by ten; the
temporary holds the digits of a 64-bit value, hence the bound 20). -/
def put_dec_core : Nat → Nat → List Char → List Char
  | 0, _, acc => acc
  | fuel + 1, n, acc =>
    if n < 10 then digit_char n :: acc
    else put_dec_core fuel (n / 10) (digit_char (n % 10) :: acc)

def put_dec (n : Nat) : List Char := put_dec_core 20 n []

/-- Text of a `%d` conversion. -/
def fmt_d (v : Int) : List Char :=
  if v < 0 then '-' :: put_dec (-v).toNat else put_dec v.toNat

/-- Text of `"[%d,%d,%d]"` applied to `channel, cal_re, cal_tempr`. -/
def fmt_record (c : fsm_cal_data) : List Char :=
  '[' :: fmt_d c.channel ++ ',' :: fmt_d c.cal_re ++ ',' :: fmt_d c.cal_tempr ++ [ ']']

/-- Bytes that `snprintf(dst, size, ...)` stores at `dst` for the formatted
text `s`: at most `size - 1` characters followed by a NUL, nothing at all when
`size` is 0.  Its return value is `s.length`, whatever `size` is. -/
def snprintf_stored (size : Nat) (s : List Char) : List Char :=
  if size = 0 then [] else s.take (size - 1) ++ [NUL]

/-- Store `bytes` at offset `off` of the memory `mem`.  A store that reaches
past the end of `mem` extends it (bytes never written before read as NUL). -/
def mem_write (mem : List Char) (off : Nat) (bytes : List Char) : List Char :=
  mem.take off ++ List.replicate (off - mem.length) NUL ++ bytes
    ++ mem.drop (off + bytes.length)

/-- The buffer `char buf[n] = {0}`. -/
def zero_buf (n : Nat) : List Char := List.replicate n NUL

/-! ## `fsm_check_re25_valid` -/

/-- The variables of the loop of `fsm_check_re25_valid`: the sample array,
the character buffer, the running length `len` and the loop index `idx`. -/
structure check_state where
  cal_data : List fsm_cal_data
  buf : List Char
  len : Int
  idx : Nat
deriving DecidableEq

/-- The `for (idx = 0; idx < data->dev_count; idx++)` loop; the first
argument is the number of iterations left, `dev_count - idx`.  On `break` the
state is returned with `idx` at the sample that hit the limit.  (Reading
`cal_data[idx]` past the array is outside the model: the loop stops.) -/
def fsm_check_re25_valid_loop (STRING_LEN_MAX : Nat) (buf_len : Int) :
    Nat → check_state → check_state
  | 0, st => st
  | n + 1, st =>
    match st.cal_data[st.idx]? with
    | none => st
    | some c =>
      if c.cal_re ≥ c.re_min ∧ c.cal_re ≤ c.re_max then
        let st1 : check_state :=
          { cal_data := st.cal_data.set st.idx { c with calib_pass := true }
            buf := mem_write st.buf st.len.toNat
              (snprintf_stored STRING_LEN_MAX (fmt_record c))
            len := st.len + (fmt_record c).length
            idx := st.idx }
        if st1.len ≥ buf_len then st1
        else fsm_check_re25_valid_loop STRING_LEN_MAX buf_len n
          { st1 with idx := st.idx + 1 }
      else
        fsm_check_re25_valid_loop STRING_LEN_MAX buf_len n
          { st with
            cal_data := st.cal_data.set st.idx { c with calib_pass := false }
            idx := st.idx + 1 }

/-- The loop of `fsm_check_re25_valid` run from `len = 0`, `idx = 0`. -/
def fsm_check_re25_valid_run (STRING_LEN_MAX : Nat) (data : fsm_calib_v2)
    (buf : List Char) (buf_len : Int) : check_state :=
  fsm_check_re25_valid_loop STRING_LEN_MAX buf_len data.dev_count.toNat
    { cal_data := data.cal_data, buf := buf, len := 0, idx := 0 }

/-- What a call of `fsm_check_re25_valid` leaves behind: the return value and
the two objects it writes through its pointer arguments. -/
structure check_result where
  ret : Int
  data : Option fsm_calib_v2
  buf : Option (List Char)
deriving DecidableEq

def fsm_check_re25_valid (STRING_LEN_MAX : Nat) (data : Option fsm_calib_v2)
    (buf : Option (List Char)) (buf_len : Int) : check_result :=
  match data, buf with
  | some d, some b =>
    let st := fsm_check_re25_valid_run STRING_LEN_MAX d b buf_len
    { ret := st.len
      data := some { dev_count := d.dev_count, cal_data := st.cal_data }
      buf := some st.buf }
  | _, _ => { ret := - EINVAL, data := data, buf := buf }

/-! ## Scanning: `sscanf(str, "[%d,%d,%d]", ...)` (the kernel's `vsscanf`) -/

/-- The kernel's `isspace`: TAB..CR, the blank and the no-break space. -/
def isspace (c : Char) : Bool :=
  (9 ≤ c.toNat && c.toNat ≤ 13) || c.toNat = 32 || c.toNat = 160

def isdigit (c : Char) : Bool := 48 ≤ c.toNat && c.toNat ≤ 57

def skip_spaces : List Char → List Char
  | [] => []
  | c :: cs => if isspace c then skip_spaces cs else c :: cs

/-- Base-10 `simple_strtoull`: the value of the leading digits and the rest
of the string. -/
def simple_strtoull : Nat → List Char → Nat × List Char
  | acc, [] => (acc, [])
  | acc, c :: cs =>
    if isdigit c then simple_strtoull (acc * 10 + (c.toNat - 48)) cs else (acc, c :: cs)

/-- Conversion of a scanned value to `int` (two's complement, 32 bits). -/
def to_int (v : Int) : Int := (v + 2147483648) % 4294967296 - 2147483648

/-- One `%d` conversion of the kernel's `vsscanf` (`lib/vsprintf.c`, a library
routine outside the sources at hand): it fails at the end of the string and
when, after white space, no digit (or `-` and a digit) follows; otherwise it
yields the value and the rest of the string. -/
def scan_d (str : List Char) : Option (Int × List Char) :=
  match skip_spaces str with
  | [] => none
  | '-' :: d :: rest =>
    if isdigit d then
      some (to_int (-((simple_strtoull 0 (d :: rest)).1 : Int)),
        (simple_strtoull 0 (d :: rest)).2)
    else none
  | d :: rest =>
    if isdigit d then
      some (to_int ((simple_strtoull 0 (d :: rest)).1 : Int),
        (simple_strtoull 0 (d :: rest)).2)
    else none

/-- The values that `sscanf(str, "[%d,%d,%d]", &a, &b, &c)` stores, in order;
the return value of `sscanf` is their number.  A literal character of the
format must match the next character of the string exactly. -/
def sscanf_record (str : List Char) : List Int :=
  match str with
  | '[' :: s1 =>
    match scan_d s1 with
    | none => []
    | some (v1, s2) =>
      match s2 with
      | ',' :: s3 =>
        match scan_d s3 with
        | none => [v1]
        | some (v2, s4) =>
          match s4 with
          | ',' :: s5 =>
            match scan_d s5 with
            | none => [v1, v2]
            | some (v3, _) => [v1, v2, v3]
          | _ => [v1, v2]
      | _ => [v1]
  | _ => []

/-- The C string that starts at offset `off` of `mem`. -/
def cstr (mem : List Char) (off : Nat) : List Char :=
  (mem.drop off).takeWhile (fun c => c != NUL)

/-- The stores `&cal_data[k].channel, &cal_data[k].cal_re, &cal_data[k].cal_tempr`
of one `sscanf` call that converted the values `vs`. -/
def store_fields (c : fsm_cal_data) (vs : List Int) : fsm_cal_data :=
  match vs with
  | [] => c
  | [v1] => { c with channel := v1 }
  | [v1, v2] => { c with channel := v1, cal_re := v2 }
  | v1 :: v2 :: v3 :: _ => { c with channel := v1, cal_re := v2, cal_tempr := v3 }

/-! ## The persisted calibration file -/

/-- The file `FSM_CALIB_FILE`: `none` while it does not exist. -/
abbrev efs_file := Option (List Char)

/-- What the file system may answer apart from the state of the file:
`open_fail = some e` makes `filp_open` fail with the error `e`;
`read_fail = some e` makes `kernel_read` return `e`; `write_ret = some r` makes
`kernel_write` return `r` after storing `r` bytes (none when `r` is negative). -/
structure efs_env where
  open_fail : Option Int
  read_fail : Option Int
  write_ret : Option Int
deriving DecidableEq

/-- A file system without faults. -/
def efs_ok : efs_env := { open_fail := none, read_fail := none, write_ret := none }

/-- The result of `fsm_read_efsdata` / `fsm_write_efsdata`: return value, the
file afterwards and the calibration set afterwards. -/
structure efs_result where
  ret : Int
  file : efs_file
  data : Option fsm_calib_v2
deriving DecidableEq

/-- Write `bytes` at position 0 of an open file (no `O_TRUNC`: what the file
held behind them stays). -/
def kernel_write_at0 (old : List Char) (bytes : List Char) : List Char :=
  bytes ++ old.drop bytes.length

/-! ## `fsm_read_efsdata` -/

/-- The `do { len = sscanf(buf + len, ...); ... } while (1)` loop.  The first
argument bounds the number of `sscanf` calls; `none` means the bound was
reached with the loop still running. -/
def fsm_read_efsdata_loop (buf : List Char) : Nat → fsm_calib_v2 → Int → Option fsm_calib_v2
  | 0, _, _ => none
  | fuel + 1, data, len =>
    let vs := sscanf_record (cstr buf len.toNat)
    let k := data.dev_count.toNat
    let data1 : fsm_calib_v2 :=
      match data.cal_data[k]? with
      | some c => { data with cal_data := data.cal_data.set k (store_fields c vs) }
      | none => data
    if (vs.length : Int) ≤ 0 then some data1
    else fsm_read_efsdata_loop buf fuel
      { data1 with dev_count := data1.dev_count + 1 } vs.length

def fsm_read_efsdata (STRING_LEN_MAX : Nat) (fuel : Nat) (env : efs_env) (file : efs_file)
    (data : Option fsm_calib_v2) : Option efs_result :=
  match data with
  | none => some { ret := - EINVAL, file := file, data := none }
  | some d =>
    if d.dev_count > 0 then some { ret := 0, file := file, data := data }
    else
      match env.open_fail, file with
      | some e, _ => some { ret := e, file := file, data := data }
      | none, none => some { ret := - ENOENT, file := file, data := data }
      | none, some content =>
        let result : Int :=
          match env.read_fail with
          | some e => e
          | none => (content.take (STRING_LEN_MAX - 1)).length
        if result ≤ 0 then some { ret := result, file := file, data := data }
        else
          let buf := mem_write (zero_buf STRING_LEN_MAX) 0 (content.take (STRING_LEN_MAX - 1))
          (fsm_read_efsdata_loop buf fuel { d with dev_count := 0 } 0).map
            fun d1 => { ret := 0, file := file, data := some d1 }

/-! ## `fsm_write_efsdata` -/

/-- `fsm_write_efsdata`.  Its buffer is the stack array
`char buf[STRING_LEN_MAX]`.  The result is `none` when the C function has no
defined outcome: when `fsm_check_re25_valid` has stored past the end of that
array, or when the length it returned would make `kernel_write` read past
it. -/
def fsm_write_efsdata (STRING_LEN_MAX : Nat) (env : efs_env) (file : efs_file)
    (data : Option fsm_calib_v2) : Option efs_result :=
  match data with
  | none => some { ret := - EINVAL, file := file, data := none }
  | some d =>
    if d.dev_count ≤ 0 then some { ret := 0, file := file, data := data }
    else
      match env.open_fail with
      | some e => some { ret := e, file := file, data := data }
      | none =>
        -- `filp_open(fname, O_RDWR | O_CREAT, 0666)` has created a missing file
        let opened : List Char := file.getD []
        let r := fsm_check_re25_valid STRING_LEN_MAX data (some (zero_buf STRING_LEN_MAX))
          STRING_LEN_MAX
        if (r.buf.getD []).length > STRING_LEN_MAX then none
        else if r.ret ≤ 0 then some { ret := - EINVAL, file := some opened, data := r.data }
        else if r.ret > STRING_LEN_MAX then none
        else
          let bytes := (r.buf.getD []).take r.ret.toNat
          match env.write_ret with
          | none =>
            some { ret := 0, file := some (kernel_write_at0 opened bytes), data := r.data }
          | some w =>
            if w = r.ret then
              some { ret := 0, file := some (kernel_write_at0 opened bytes), data := r.data }
            else
              some
                { ret := - ENOMEM
                  file := some (kernel_write_at0 opened (bytes.take w.toNat))
                  data := r.data }

/-! ## The register transport -/

/-- A message of `i2c_transfer` (`struct i2c_msg`); `buf` holds the bytes to
send, and is empty for a read message. -/
structure i2c_msg where
  addr : Nat
  flags : Nat
  len : Nat
  buf : List Nat
deriving DecidableEq

def I2C_M_RD : Nat := 1

/-- The bus client of a device (`struct i2c_client`): its bus address. -/
structure i2c_client where
  addr : Nat
deriving DecidableEq

/-- The fields of `struct fsm_dev` (declared in `fsm_public.h`, not among the
sources at hand) that `fsm_i2c.c` reads or writes in the functions modelled
here.  `fsm_wq` tells whether the work queue pointer is set. -/
structure fsm_dev_t where
  i2c : Option i2c_client
  fsm_wq : Bool
  use_irq : Bool
  irq_id : Int
  rec_count : Int
deriving DecidableEq

/-- The bus as the driver sees it.  `transfer k msgs` is the answer to the
`k`-th call (counted from 0 within one driver call) of `i2c_transfer` with the
messages `msgs`: its return value and the bytes received for the read message.
`master_send k bytes` is the return value of the `k`-th `i2c_master_send`. -/
structure i2c_bus where
  transfer : Nat → List i2c_msg → Int × List Nat
  master_send : Nat → List Nat → Int

/-- Outcome of a transport call: the return value, the number of bus
transfers attempted and, for a read, the object behind `pVal` afterwards. -/
structure i2c_result where
  ret : Int
  transfers : Nat
  val : Option Nat
deriving DecidableEq

/-- The `uint8_t retries` counter after `retries++`. -/
def retries_inc (retries : Nat) : Nat := (retries + 1) % 256

/-- The retry loop shared by `fsm_i2c_reg_read` and `fsm_i2c_reg_write`
(`expected` is `ARRAY_SIZE(msgs)`):
`do { ret = i2c_transfer(...); if (ret != expected) { delay; retries++; } }
while (ret != expected && retries < FSM_I2C_RETRY);`
The first argument bounds the number of transfers; `none` means the bound was
reached with the loop still running.  The result is the last return value,
the bytes received and the number of transfers made. -/
def i2c_transfer_loop (FSM_I2C_RETRY : Int) (bus : i2c_bus) (msgs : List i2c_msg)
    (expected : Int) : Nat → Nat → Nat → Option (Int × List Nat × Nat)
  | 0, _, _ => none
  | fuel + 1, retries, calls =>
    let r := bus.transfer calls msgs
    if r.1 ≠ expected then
      if (retries_inc retries : Int) < FSM_I2C_RETRY then
        i2c_transfer_loop FSM_I2C_RETRY bus msgs expected fuel (retries_inc retries) (calls + 1)
      else some (r.1, r.2, calls + 1)
    else some (r.1, r.2, calls + 1)

/-- The two messages of a register read; the first carries the register
address, a `uint8_t`. -/
def reg_read_msgs (i2c : i2c_client) (reg : Nat) : List i2c_msg :=
  [ { addr := i2c.addr, flags := 0, len := 1, buf := [reg % 256] },
    { addr := i2c.addr, flags := I2C_M_RD, len := 2, buf := [] } ]

/-- The value assigned by `*pVal = ((buffer[0] << 8) | buffer[1])`. -/
def reg_decode (buffer : List Nat) : Nat :=
  (((buffer.getD 0 0 % 256) <<< 8) ||| (buffer.getD 1 0 % 256)) % 65536

def fsm_i2c_reg_read (FSM_I2C_RETRY : Int) (fuel : Nat) (bus : i2c_bus)
    (fsm_dev : Option fsm_dev_t) (reg : Nat) (pVal : Option Nat) : Option i2c_result :=
  match fsm_dev with
  | none => some { ret := - EINVAL, transfers := 0, val := pVal }
  | some dev =>
    match dev.i2c, pVal with
    | some i2c, some _ =>
      (i2c_transfer_loop FSM_I2C_RETRY bus (reg_read_msgs i2c reg) 2 fuel 0 0).map fun r =>
        if r.1 ≠ 2 then { ret := - EIO, transfers := r.2.2, val := pVal }
        else { ret := 0, transfers := r.2.2, val := some (reg_decode r.2.1) }
    | _, _ => some { ret := - EINVAL, transfers := 0, val := pVal }

/-- The three bytes `buffer[0] = reg; buffer[1] = (val >> 8) & 0xff;
buffer[2] = val & 0xff` of a register write. -/
def reg_write_buffer (reg : Nat) (val : Nat) : List Nat :=
  [reg % 256, (val >>> 8) &&& 255, val &&& 255]

/-- The message of a register write. -/
def reg_write_msgs (i2c : i2c_client) (reg : Nat) (val : Nat) : List i2c_msg :=
  [ { addr := i2c.addr, flags := 0, len := 3, buf := reg_write_buffer reg val } ]

def fsm_i2c_reg_write (FSM_I2C_RETRY : Int) (fuel : Nat) (bus : i2c_bus)
    (fsm_dev : Option fsm_dev_t) (reg : Nat) (val : Nat) : Option i2c_result :=
  match fsm_dev with
  | none => some { ret := - EINVAL, transfers := 0, val := none }
  | some dev =>
    match dev.i2c with
    | none => some { ret := - EINVAL, transfers := 0, val := none }
    | some i2c =>
      (i2c_transfer_loop FSM_I2C_RETRY bus (reg_write_msgs i2c reg val) 1 fuel 0 0).map fun r =>
        if r.1 ≠ 1 then { ret := - EIO, transfers := r.2.2, val := none }
        else { ret := 0, transfers := r.2.2, val := none }

/-- The send loop of `fsm_i2c_bulkwrite`:
`do { ret = i2c_master_send(...); if (ret < 0) { delay; retries++; }
else if (ret == size) break; } while (ret != size && retries < FSM_I2C_RETRY);`
The first argument bounds the number of sends; `none` means the bound was
reached with the loop still running.  The result is the last return value and
the number of sends made. -/
def fsm_i2c_bulkwrite_loop (FSM_I2C_RETRY : Int) (bus : i2c_bus) (buf : List Nat)
    (size : Int) : Nat → Nat → Nat → Option (Int × Nat)
  | 0, _, _ => none
  | fuel + 1, retries, calls =>
    let ret := bus.master_send calls buf
    if ret < 0 then
      if ret ≠ size ∧ (retries_inc retries : Int) < FSM_I2C_RETRY then
        fsm_i2c_bulkwrite_loop FSM_I2C_RETRY bus buf size fuel (retries_inc retries) (calls + 1)
      else some (ret, calls + 1)
    else if ret = size then some (ret, calls + 1)
    else if ret ≠ size ∧ (retries : Int) < FSM_I2C_RETRY then
      fsm_i2c_bulkwrite_loop FSM_I2C_RETRY bus buf size fuel retries (calls + 1)
    else some (ret, calls + 1)

/-- `fsm_i2c_bulkwrite`.  `alloc_ok` tells whether `fsm_alloc_mem(size)`
returns memory; `data` is the caller's buffer, of which `len` bytes are
copied behind the register byte. -/
def fsm_i2c_bulkwrite (FSM_I2C_RETRY : Int) (fuel : Nat) (bus : i2c_bus) (alloc_ok : Bool)
    (fsm_dev : Option fsm_dev_t) (reg : Nat) (data : Option (List Nat)) (len : Int) :
    Option i2c_result :=
  match fsm_dev with
  | none => some { ret := - EINVAL, transfers := 0, val := none }
  | some dev =>
    match dev.i2c, data with
    | some _, some bytes =>
      let size : Int := 1 + len
      if alloc_ok = false then some { ret := - ENOMEM, transfers := 0, val := none }
      else
        (fsm_i2c_bulkwrite_loop FSM_I2C_RETRY bus (reg % 256 :: bytes.take len.toNat) size
            fuel 0 0).map fun r =>
          if r.1 ≠ size then { ret := - EIO, transfers := r.2, val := none }
          else { ret := 0, transfers := r.2, val := none }
    | _, _ => some { ret := - EINVAL, transfers := 0, val := none }

/-! ## The supply rail: `fsm_vddd_on` -/

/-- The fields of `fsm_config_t` (declared in `fsm_public.h`, not among the
sources at hand) that `fsm_i2c.c` reads or writes in the functions modelled
here. -/
structure fsm_config_t where
  vddd_on : Int
  dev_count : Int
  skip_monitor : Bool
  reset_chip : Bool
deriving DecidableEq

/-- What `regulator_get(dev, "fsm_vddd")` returns: a regulator, or an error
pointer carrying `err`. -/
inductive regulator_get_result where
  | handle (h : Nat)
  | err (e : Int)
deriving DecidableEq

/-- The regulator framework as the driver sees it: the result of
`regulator_get` and the return value of `regulator_enable`. -/
structure regulator_env where
  get : regulator_get_result
  enable : Int
deriving DecidableEq

/-- The calls the driver makes into the regulator framework. -/
inductive regulator_call where
  | get
  | set_voltage (min_uV max_uV : Nat)
  | enable
deriving DecidableEq

/-- The rail state: the configuration returned by `fsm_get_config()` and the
global `g_fsm_vdd` (`none` is `NULL`). -/
structure rail_state where
  cfg : Option fsm_config_t
  g_fsm_vdd : Option Nat
deriving DecidableEq

/-- Outcome of `fsm_vddd_on`: return value, state afterwards, and the
regulator calls made, in order. -/
structure vddd_result where
  ret : Int
  state : rail_state
  calls : List regulator_call
deriving DecidableEq

def fsm_vddd_on (CONFIG_REGULATOR : Bool) (env : regulator_env) (st : rail_state) :
    vddd_result :=
  match st.cfg with
  | none => { ret := 0, state := st, calls := [] }
  | some cfg =>
    if cfg.vddd_on ≠ 0 then { ret := 0, state := st, calls := [] }
    else if CONFIG_REGULATOR then
      match env.get with
      | .err e =>
        { ret := e, state := { st with g_fsm_vdd := none }, calls := [.get] }
      | .handle h =>
        -- a negative `regulator_enable` is only logged
        { ret := env.enable
          state := { cfg := some { cfg with vddd_on := 1 }, g_fsm_vdd := some h }
          calls := [.get, .set_voltage 1800000 1800000, .enable] }
    else
      { ret := 0, state := { st with cfg := some { cfg with vddd_on := 1 } }, calls := [] }

/-! ## The health monitor: `fsm_set_monitor`, `fsm_work_monitor` -/

/-- The chip-specific routines a probe pass calls; they live in other files of
the driver and may change the device, in particular `rec_count`. -/
structure monitor_ext where
  fsm_dev_recover : fsm_dev_t → fsm_dev_t
  fsm_get_spkr_tempr : fsm_dev_t → fsm_dev_t

/-- Outcome of one run of `fsm_work_monitor`: the device afterwards, whether
`fsm_dev_recover` was called, and whether the pass called
`queue_delayed_work` for `monitor_work` at its end. -/
structure monitor_pass where
  dev : fsm_dev_t
  recovered : Bool
  requeue : Bool
deriving DecidableEq

/-- The body of `fsm_work_monitor` (`fsm_dev` comes from `container_of` and is
never null). -/
def fsm_work_monitor (cfg : Option fsm_config_t) (ext : monitor_ext) (fsm_dev : fsm_dev_t) :
    monitor_pass :=
  match cfg with
  | none => { dev := fsm_dev, recovered := false, requeue := false }
  | some c =>
    if c.skip_monitor then { dev := fsm_dev, recovered := false, requeue := false }
    else
      let dev1 := ext.fsm_get_spkr_tempr (ext.fsm_dev_recover fsm_dev)
      if dev1.rec_count ≥ 5 then { dev := dev1, recovered := true, requeue := false }
      else { dev := dev1, recovered := true, requeue := true }

/-- A device together with its delayed work item `monitor_work`, as the
kernel work queue (`kernel/workqueue.c`, outside the sources at hand) keeps
it.  `pending` is what `delayed_work_pending` reports: the work is queued and
waits for its timer or for the worker.  `running` holds while the worker
executes `fsm_work_monitor`; the work queue clears `pending` before it calls
the function.  `irq_enabled` is the state of the interrupt line as a flag.
`passes` counts the runs that called `fsm_dev_recover`. -/
structure monitor_sys where
  dev : fsm_dev_t
  pending : Bool
  running : Bool
  irq_enabled : Bool
  passes : Nat
deriving DecidableEq

/-- `queue_delayed_work(fsm_wq, &monitor_work, 2*HZ)`: no effect on a work
that is already pending. -/
def queue_delayed_work (st : monitor_sys) : monitor_sys := { st with pending := true }

/-- The worker takes the pending work and starts `fsm_work_monitor` (a work
item never runs twice at once on its single-threaded queue). -/
def worker_begin (st : monitor_sys) : monitor_sys :=
  if st.pending ∧ ¬ st.running then { st with pending := false, running := true } else st

/-- The run of `fsm_work_monitor` that is in flight reaches its end. -/
def worker_end (cfg : Option fsm_config_t) (ext : monitor_ext) (st : monitor_sys) :
    monitor_sys :=
  if st.running then
    let p := fsm_work_monitor cfg ext st.dev
    { st with
      dev := p.dev
      pending := st.pending || p.requeue
      running := false
      passes := if p.recovered then st.passes + 1 else st.passes }
  else st

/-- `cancel_delayed_work_sync(&monitor_work)`: the pending work is taken off
the queue, and a run in flight is waited for; while the cancellation is in
progress that run cannot queue the work again. -/
def cancel_delayed_work_sync (cfg : Option fsm_config_t) (ext : monitor_ext)
    (st : monitor_sys) : monitor_sys :=
  if st.running then
    let p := fsm_work_monitor cfg ext st.dev
    { st with
      dev := p.dev
      pending := false
      running := false
      passes := if p.recovered then st.passes + 1 else st.passes }
  else { st with pending := false }

def fsm_set_irq (fsm_dev : Option monitor_sys) (enable : Bool) : Int × Option monitor_sys :=
  match fsm_dev with
  | none => (- EINVAL, none)
  | some st =>
    if st.dev.irq_id ≤ 0 then (- EINVAL, some st)
    else (0, some { st with irq_enabled := enable })

def fsm_set_monitor (cfg : Option fsm_config_t) (ext : monitor_ext)
    (fsm_dev : Option monitor_sys) (enable : Bool) : Int × Option monitor_sys :=
  match fsm_dev with
  | none => (- EINVAL, none)
  | some st =>
    if st.dev.fsm_wq = false then (- EINVAL, some st)
    else if st.dev.use_irq then fsm_set_irq (some st) enable
    else if enable then (0, some (queue_delayed_work st))
    else if st.pending then (0, some (cancel_delayed_work_sync cfg ext st))
    else (0, some st)

/-- One turn of the worker: a pending probe, if any, runs from start to end. -/
def probe_tick (cfg : Option fsm_config_t) (ext : monitor_ext) (st : monitor_sys) :
    monitor_sys :=
  worker_end cfg ext (worker_begin st)

/-- The first `n` turns of the worker. -/
def run_probes (cfg : Option fsm_config_t) (ext : monitor_ext) : Nat → monitor_sys → monitor_sys
  | 0, st => st
  | n + 1, st => run_probes cfg ext n (probe_tick cfg ext st)

/-- A device that has just been set up: nothing queued, nothing running. -/
def monitor_idle (dev : fsm_dev_t) : monitor_sys :=
  { dev := dev, pending := false, running := false, irq_enabled := false, passes := 0 }

/-- The flag that one visit of the loop stores in a sample. -/
def visited (c : fsm_cal_data) : fsm_cal_data :=
  { c with calib_pass := decide (c.cal_re ≥ c.re_min ∧ c.cal_re ≤ c.re_max) }

/-! ## Concrete inputs used by the witnesses and counterexamples -/

/-- A sample whose record is as long as a record of three `int`s can be
(37 characters); it lies within its band and its flag is still clear. -/
def wide_sample : fsm_cal_data :=
  { channel := -2147483648, cal_tempr := -2147483648, cal_re := -2147483648
    re_min := -2147483648, re_max := 2147483647, calib_pass := false }

/-- Two samples that both lie within their bands. -/
def two_inband : fsm_calib_v2 :=
  { dev_count := 2
    cal_data :=
      [ { channel := 1, cal_tempr := 25, cal_re := 32768
          re_min := 22937, re_max := 42598, calib_pass := false },
        { channel := 2, cal_tempr := 26, cal_re := 33000
          re_min := 22937, re_max := 42598, calib_pass := false } ] }

/-- Two samples that both lie outside their bands. -/
def two_outside : fsm_calib_v2 :=
  { dev_count := 2
    cal_data :=
      [ { channel := 1, cal_tempr := 25, cal_re := 50000
          re_min := 22937, re_max := 42598, calib_pass := false },
        { channel := 2, cal_tempr := 26, cal_re := 100
          re_min := 22937, re_max := 42598, calib_pass := false } ] }

/-- An empty calibration set (`dev_count = 0`) with room for two samples. -/
def empty_set : fsm_calib_v2 :=
  { dev_count := 0
    cal_data :=
      [ { channel := 0, cal_tempr := 0, cal_re := 0, re_min := 0, re_max := 0
          calib_pass := false },
        { channel := 0, cal_tempr := 0, cal_re := 0, re_min := 0, re_max := 0
          calib_pass := false } ] }

/-- Four samples with records of 37 characters each. -/
def four_wide : fsm_calib_v2 :=
  { dev_count := 4
    cal_data := [wide_sample, wide_sample, wide_sample, wide_sample] }

/-- Seven samples with records of 37 characters each. -/
def seven_wide : fsm_calib_v2 :=
  { dev_count := 7
    cal_data :=
      [wide_sample, wide_sample, wide_sample, wide_sample, wide_sample, wide_sample,
        wide_sample] }

/-- A timer-mode device with a bus client at address 0x34 and a work queue. -/
def timer_dev : fsm_dev_t :=
  { i2c := some { addr := 52 }, fsm_wq := true, use_irq := false, irq_id := -1
    rec_count := 0 }

/-- A bus on which every transfer fails with `-EREMOTEIO`. -/
def dead_bus : i2c_bus :=
  { transfer := fun _ _ => (-121, []), master_send := fun _ _ => -121 }

/-- A bus on which every transfer moves nothing and reports the count 0. -/
def short_bus : i2c_bus :=
  { transfer := fun _ _ => (0, []), master_send := fun _ _ => 0 }

/-- A bus on which every transfer completes. -/
def good_bus : i2c_bus :=
  { transfer := fun _ msgs => (msgs.length, [0, 0])
    master_send := fun _ bytes => bytes.length }

/-- A configuration with monitoring allowed and the rail off. -/
def plain_cfg : fsm_config_t :=
  { vddd_on := 0, dev_count := 0, skip_monitor := false, reset_chip := false }

/-- External routines of a device that shows a fault on every pass. -/
def faulty_ext : monitor_ext :=
  { fsm_dev_recover := fun d => { d with rec_count := d.rec_count + 1 }
    fsm_get_spkr_tempr := fun d => d }

/-- External routines of a device that never shows a fault. -/
def healthy_ext : monitor_ext :=
  { fsm_dev_recover := fun d => d, fsm_get_spkr_tempr := fun d => d }

/-- The rail off: `vddd_on = 0`, no regulator held. -/
def rail_off : rail_state := { cfg := some plain_cfg, g_fsm_vdd := none }

/-- A bus that completes a transfer only when it is handed exactly the
messages `expected`, and then delivers the bytes `rx` for the read message;
any other transfer fails with `-EREMOTEIO`. -/
def expecting_bus (expected : List i2c_msg) (rx : List Nat) : i2c_bus :=
  { transfer := fun _ msgs => if msgs = expected then (msgs.length, rx) else (-121, [])
    master_send := fun _ _ => -121 }

/-- The characters a `%d` conversion or the separator of the record format can
consume: white space, `-`, a digit, and the comma. -/
def num_char (c : Char) : Bool := isspace c || c == '-' || isdigit c || c == ','

/-! ## Lemmas about the loops -/

theorem check_loop_spec (S : Nat) (buf_len : Int) (n : Nat) :
    ∀ st : check_state, st.idx + n ≤ st.cal_data.length →
      (fsm_check_re25_valid_loop S buf_len n st).cal_data.length = st.cal_data.length ∧
      st.idx ≤ (fsm_check_re25_valid_loop S buf_len n st).idx ∧
      (∀ i, i < st.idx →
        (fsm_check_re25_valid_loop S buf_len n st).cal_data[i]? = st.cal_data[i]?) ∧
      (∀ i, (fsm_check_re25_valid_loop S buf_len n st).idx < i →
        (fsm_check_re25_valid_loop S buf_len n st).cal_data[i]? = st.cal_data[i]?) ∧
      (∀ i, st.idx ≤ i → i ≤ (fsm_check_re25_valid_loop S buf_len n st).idx →
        i < st.idx + n →
        ∃ c0, st.cal_data[i]? = some c0 ∧
          (fsm_check_re25_valid_loop S buf_len n st).cal_data[i]? = some (visited c0)) ∧
      ((fsm_check_re25_valid_loop S buf_len n st).len < buf_len →
        (fsm_check_re25_valid_loop S buf_len n st).idx = st.idx + n) := by
  induction n with
  | zero =>
    intro st _
    simp only [fsm_check_re25_valid_loop, Nat.add_zero, le_refl, implies_true, true_and,
      and_true]
    intro i h1 _ h3
    omega
  | succ n ih =>
    intro st h
    have hlt : st.idx < st.cal_data.length := by omega
    have hget : st.cal_data[st.idx]? = some st.cal_data[st.idx] :=
      List.getElem?_eq_getElem hlt
    rw [fsm_check_re25_valid_loop, hget]
    simp only
    by_cases hb : st.cal_data[st.idx].cal_re ≥ st.cal_data[st.idx].re_min ∧
        st.cal_data[st.idx].cal_re ≤ st.cal_data[st.idx].re_max
    · rw [if_pos hb]
      have hv : visited st.cal_data[st.idx]
          = { st.cal_data[st.idx] with calib_pass := true } := by
        simp [visited, hb]
      split
      · -- break
        refine ⟨by simp, le_refl _, ?_, ?_, ?_, ?_⟩
        · intro i hi
          simp only
          rw [List.getElem?_set_ne (by omega)]
        · intro i hi
          simp only at hi ⊢
          rw [List.getElem?_set_ne (by omega)]
        · intro i h1 h2 _
          simp only at h2 ⊢
          have : i = st.idx := by omega
          subst this
          exact ⟨_, hget, by simp [List.getElem?_set_self hlt, hv]⟩
        · intro hl
          simp only at hl
          omega
      · -- continue
        obtain ⟨l1, l2, l3, l4, l5, l6⟩ := ih
          { cal_data := st.cal_data.set st.idx { st.cal_data[st.idx] with calib_pass := true }
            buf := mem_write st.buf st.len.toNat
              (snprintf_stored S (fmt_record st.cal_data[st.idx]))
            len := st.len + (fmt_record st.cal_data[st.idx]).length
            idx := st.idx + 1 } (by simp; omega)
        simp only [List.length_set] at l1 l2 l3 l4 l5 l6
        refine ⟨l1, by omega, ?_, ?_, ?_, ?_⟩
        · intro i hi
          rw [l3 i (by omega), List.getElem?_set_ne (by omega)]
        · intro i hi
          rw [l4 i hi, List.getElem?_set_ne (by omega)]
        · intro i h1 h2 h3
          by_cases hi : i = st.idx
          · subst hi
            refine ⟨_, hget, ?_⟩
            rw [l3 _ (by omega), List.getElem?_set_self hlt, hv]
          · obtain ⟨c0, e1, e2⟩ := l5 i (by omega) h2 (by omega)
            rw [List.getElem?_set_ne (by omega)] at e1
            exact ⟨c0, e1, e2⟩
        · intro hl
          rw [l6 hl]; omega
    · rw [if_neg hb]
      have hv : visited st.cal_data[st.idx]
          = { st.cal_data[st.idx] with calib_pass := false } := by
        simp only [visited, decide_eq_false hb]
      obtain ⟨l1, l2, l3, l4, l5, l6⟩ := ih
        { st with
          cal_data := st.cal_data.set st.idx { st.cal_data[st.idx] with calib_pass := false }
          idx := st.idx + 1 } (by simp; omega)
      simp only [List.length_set] at l1 l2 l3 l4 l5 l6
      refine ⟨l1, by omega, ?_, ?_, ?_, ?_⟩
      · intro i hi
        rw [l3 i (by omega), List.getElem?_set_ne (by omega)]
      · intro i hi
        rw [l4 i hi, List.getElem?_set_ne (by omega)]
      · intro i h1 h2 h3
        by_cases hi : i = st.idx
        · subst hi
          refine ⟨_, hget, ?_⟩
          rw [l3 _ (by omega), List.getElem?_set_self hlt, hv]
        · obtain ⟨c0, e1, e2⟩ := l5 i (by omega) h2 (by omega)
          rw [List.getElem?_set_ne (by omega)] at e1
          exact ⟨c0, e1, e2⟩
      · intro hl
        rw [l6 hl]; omega

/-- While no sample of the remaining range lies within its band, the loop
formats nothing: `len` and the buffer stay as they are. -/
theorem check_loop_nothing_valid (S : Nat) (buf_len : Int) (n : Nat) :
    ∀ st : check_state,
      (∀ i c, st.idx ≤ i → i < st.idx + n → st.cal_data[i]? = some c →
        ¬ (c.cal_re ≥ c.re_min ∧ c.cal_re ≤ c.re_max)) →
      (fsm_check_re25_valid_loop S buf_len n st).len = st.len ∧
      (fsm_check_re25_valid_loop S buf_len n st).buf = st.buf := by
  induction n with
  | zero => intro st _; exact ⟨rfl, rfl⟩
  | succ n ih =>
    intro st h
    rw [fsm_check_re25_valid_loop]
    cases hget : st.cal_data[st.idx]? with
    | none => exact ⟨rfl, rfl⟩
    | some c =>
      have hb := h st.idx c (le_refl _) (by omega) hget
      simp only [if_neg hb]
      have := ih
        { st with
          cal_data := st.cal_data.set st.idx { c with calib_pass := false }
          idx := st.idx + 1 }
        (by
          intro i c1 h1 h2 h3
          simp only at h1 h2 h3
          rw [List.getElem?_set_ne (by omega)] at h3
          exact h i c1 (by omega) (by omega) h3)
      exact this

theorem fmt_record_flag (c : fsm_cal_data) (b : Bool) :
    fmt_record { c with calib_pass := b } = fmt_record c := rfl

theorem mem_write_length (mem : List Char) (off : Nat) (bytes : List Char) :
    off + bytes.length ≤ (mem_write mem off bytes).length := by
  simp only [mem_write, List.length_append, List.length_take, List.length_replicate,
    List.length_drop]
  omega

/-- If the final length is at or beyond the limit, the loop was left by its
`break`. -/
theorem check_loop_limit (S : Nat) (buf_len : Int) (n : Nat) :
    ∀ st : check_state, st.len < buf_len →
      (fsm_check_re25_valid_loop S buf_len n st).len ≥ buf_len →
      (fsm_check_re25_valid_loop S buf_len n st).idx < st.idx + n := by
  induction n with
  | zero =>
    intro st h1 h2
    simp only [fsm_check_re25_valid_loop] at h2
    omega
  | succ n ih =>
    intro st h1 h2
    rw [fsm_check_re25_valid_loop] at h2 ⊢
    cases hget : st.cal_data[st.idx]? with
    | none =>
      simp only [hget] at h2
      omega
    | some c =>
      simp only [hget] at h2 ⊢
      by_cases hb : c.cal_re ≥ c.re_min ∧ c.cal_re ≤ c.re_max
      · simp only [if_pos hb] at h2 ⊢
        by_cases hl : st.len + ((fmt_record c).length : Int) ≥ buf_len
        · simp only [if_pos hl]
          omega
        · simp only [if_neg hl] at h2 ⊢
          have := ih _ (by simp only; omega) h2
          simp only at this
          omega
      · simp only [if_neg hb] at h2 ⊢
        have := ih _ (by simp only; exact h1) h2
        simp only at this
        omega

/-- While every record is shorter than `STRING_LEN_MAX`, so that `snprintf`
stores it whole, the memory written reaches one byte beyond the running
length: the record and its NUL. -/
theorem check_loop_extent (S : Nat) (buf_len : Int) (n : Nat) :
    ∀ st : check_state,
      (∀ c ∈ st.cal_data, (fmt_record c).length < S) →
      0 ≤ st.len → (0 < st.len → st.len + 1 ≤ st.buf.length) →
      0 ≤ (fsm_check_re25_valid_loop S buf_len n st).len ∧
      (0 < (fsm_check_re25_valid_loop S buf_len n st).len →
        (fsm_check_re25_valid_loop S buf_len n st).len + 1
          ≤ (fsm_check_re25_valid_loop S buf_len n st).buf.length) := by
  induction n with
  | zero => intro st _ h0 h1; exact ⟨h0, h1⟩
  | succ n ih =>
    intro st hrec h0 h1
    rw [fsm_check_re25_valid_loop]
    cases hget : st.cal_data[st.idx]? with
    | none => exact ⟨h0, h1⟩
    | some c =>
      have hc : c ∈ st.cal_data := List.getElem?_mem hget
      have hcl := hrec c hc
      have hrec' : ∀ b : Bool, ∀ x ∈ st.cal_data.set st.idx { c with calib_pass := b },
          (fmt_record x).length < S := by
        intro b x hx
        rcases List.mem_or_eq_of_mem_set hx with hx | hx
        · exact hrec x hx
        · rw [hx, fmt_record_flag]; exact hcl
      simp only
      by_cases hb : c.cal_re ≥ c.re_min ∧ c.cal_re ≤ c.re_max
      · simp only [if_pos hb]
        have hst : snprintf_stored S (fmt_record c) = fmt_record c ++ [NUL] := by
          have hS : S ≠ 0 := by omega
          simp only [snprintf_stored, if_neg hS]
          rw [List.take_of_length_le (by omega)]
        have hext : st.len + ((fmt_record c).length : Int) + 1
            ≤ (mem_write st.buf st.len.toNat (snprintf_stored S (fmt_record c))).length := by
          have := mem_write_length st.buf st.len.toNat (snprintf_stored S (fmt_record c))
          rw [hst] at this ⊢
          simp only [List.length_append, List.length_singleton] at this
          omega
        split
        · exact ⟨by simp only; omega, fun _ => hext⟩
        · exact ih _ (hrec' true) (by simp only; omega) (fun _ => hext)
      · simp only [if_neg hb]
        exact ih _ (hrec' false) h0 h1

/-- When every transfer misses the expected count and `FSM_I2C_RETRY` fits
the 8-bit counter, the retry loop started with `m` attempts left before the
counter reaches `FSM_I2C_RETRY` makes exactly `m` transfers and ends with a
return value other than the expected one. -/
theorem i2c_transfer_loop_all_fail (R : Int) (bus : i2c_bus) (msgs : List i2c_msg)
    (expected : Int) (hR : R ≤ 255) (hfail : ∀ k, (bus.transfer k msgs).1 ≠ expected)
    (m : Nat) :
    ∀ (fuel retries calls : Nat), (retries : Int) + m = R → 1 ≤ m → m ≤ fuel →
      ∃ ret rx, i2c_transfer_loop R bus msgs expected fuel retries calls
          = some (ret, rx, calls + m) ∧ ret ≠ expected := by
  induction m with
  | zero => intro _ _ _ _ h; omega
  | succ m ih =>
    intro fuel retries calls hsum _ hfuel
    obtain ⟨f, rfl⟩ : ∃ f, fuel = f + 1 := ⟨fuel - 1, by omega⟩
    have hinc : retries_inc retries = retries + 1 := by
      unfold retries_inc
      apply Nat.mod_eq_of_lt
      omega
    rw [i2c_transfer_loop]
    simp only [hfail calls, ne_eq, not_false_eq_true, if_true, hinc]
    by_cases hm : m = 0
    · subst hm
      have hnot : ¬ (((retries + 1 : Nat) : Int) < R) := by push_cast; omega
      rw [if_neg hnot]
      exact ⟨_, _, rfl, hfail calls⟩
    · have hlt : (((retries + 1 : Nat) : Int) < R) := by push_cast; omega
      rw [if_pos hlt]
      obtain ⟨ret, rx, e, hne⟩ := ih f (retries + 1) (calls + 1)
        (by push_cast; omega) (by omega) (by omega)
      exact ⟨ret, rx, by rw [e]; congr 3; omega, hne⟩

/-- While every pass adds one to `rec_count`, the worker turns keep
`rec_count` equal to the number of passes, keep the work pending exactly
while that number is below 5, and stop at 5. -/
theorem run_probes_counting (cfg : fsm_config_t) (ext : monitor_ext)
    (hskip : cfg.skip_monitor = false)
    (hrec : ∀ d, (ext.fsm_dev_recover d).rec_count = d.rec_count + 1)
    (htmp : ∀ d, (ext.fsm_get_spkr_tempr d).rec_count = d.rec_count) (n : Nat) :
    ∀ st : monitor_sys, st.running = false → st.dev.rec_count = st.passes →
      st.passes ≤ 5 → (st.pending = true ↔ st.passes < 5) →
      (run_probes (some cfg) ext n st).passes = min (st.passes + n) 5 ∧
      (run_probes (some cfg) ext n st).dev.rec_count = (run_probes (some cfg) ext n st).passes ∧
      ((run_probes (some cfg) ext n st).pending = true
        ↔ (run_probes (some cfg) ext n st).passes < 5) ∧
      (run_probes (some cfg) ext n st).running = false := by
  induction n with
  | zero =>
    intro st hrun hcnt hle hpend
    simp only [run_probes, Nat.add_zero]
    exact ⟨by omega, hcnt, hpend, hrun⟩
  | succ n ih =>
    intro st hrun hcnt hle hpend
    rw [run_probes]
    by_cases hp : st.pending = true
    · have hlt : st.passes < 5 := hpend.mp hp
      have hc1 : (ext.fsm_get_spkr_tempr (ext.fsm_dev_recover st.dev)).rec_count
          = st.passes + 1 := by rw [htmp, hrec, hcnt]
      by_cases h5 : st.passes + 1 = 5
      · have hge : (ext.fsm_get_spkr_tempr (ext.fsm_dev_recover st.dev)).rec_count ≥ 5 := by
          rw [hc1]; omega
        have e : probe_tick (some cfg) ext st
            = { st with
                dev := ext.fsm_get_spkr_tempr (ext.fsm_dev_recover st.dev)
                pending := false, running := false, passes := st.passes + 1 } := by
          simp [probe_tick, worker_begin, worker_end, fsm_work_monitor, hp, hrun, hskip, hge]
        rw [e]
        obtain ⟨a, b, c, d⟩ := ih
          { st with
            dev := ext.fsm_get_spkr_tempr (ext.fsm_dev_recover st.dev)
            pending := false, running := false, passes := st.passes + 1 }
          rfl
          (by
            show (ext.fsm_get_spkr_tempr (ext.fsm_dev_recover st.dev)).rec_count
              = ((st.passes + 1 : Nat) : Int)
            rw [hc1]; push_cast; rfl)
          (by show st.passes + 1 ≤ 5; omega)
          (by
            show (false = true ↔ st.passes + 1 < 5)
            constructor
            · intro h; cases h
            · intro h; omega)
        simp only at a
        exact ⟨by omega, b, c, d⟩
      · have hge : ¬ (ext.fsm_get_spkr_tempr (ext.fsm_dev_recover st.dev)).rec_count ≥ 5 := by
          rw [hc1]; omega
        have e : probe_tick (some cfg) ext st
            = { st with
                dev := ext.fsm_get_spkr_tempr (ext.fsm_dev_recover st.dev)
                pending := true, running := false, passes := st.passes + 1 } := by
          simp [probe_tick, worker_begin, worker_end, fsm_work_monitor, hp, hrun, hskip, hge]
        rw [e]
        obtain ⟨a, b, c, d⟩ := ih
          { st with
            dev := ext.fsm_get_spkr_tempr (ext.fsm_dev_recover st.dev)
            pending := true, running := false, passes := st.passes + 1 }
          rfl
          (by
            show (ext.fsm_get_spkr_tempr (ext.fsm_dev_recover st.dev)).rec_count
              = ((st.passes + 1 : Nat) : Int)
            rw [hc1]; push_cast; rfl)
          (by show st.passes + 1 ≤ 5; omega)
          (by
            show (true = true ↔ st.passes + 1 < 5)
            constructor
            · intro _; omega
            · intro _; rfl)
        simp only at a
        exact ⟨by omega, b, c, d⟩
    · have hpf : st.pending = false := by simpa using hp
      have h5 : st.passes = 5 := by
        have : ¬ st.passes < 5 := fun h => hp (hpend.mpr h)
        omega
      have e : probe_tick (some cfg) ext st = st := by
        simp [probe_tick, worker_begin, worker_end, hpf, hrun]
      rw [e]
      obtain ⟨a, b, c, d⟩ := ih st hrun hcnt hle hpend
      exact ⟨by omega, b, c, d⟩

/-! ## C1: the flag written by the validation pass -/

/-- What the validation pass does to the sample at index `i` below
`dev_count` (for a `dev_count` within the array): up to the final `idx` of the
loop the sample is the old one with `calib_pass` set to true exactly when
`re_min <= cal_re <= re_max`, behind it the sample is as it was, and when the
returned length is below `buf_len` every index is below the final `idx`. -/
theorem fsm_check_re25_valid_flags (S : Nat) (data : fsm_calib_v2) (buf : List Char)
    (buf_len : Int) (i : Nat) (hcap : data.dev_count ≤ data.cal_data.length)
    (hi : (i : Int) < data.dev_count) :
    ∃ d c0 c, (fsm_check_re25_valid S (some data) (some buf) buf_len).data = some d ∧
      d.dev_count = data.dev_count ∧
      data.cal_data[i]? = some c0 ∧ d.cal_data[i]? = some c ∧
      (i ≤ (fsm_check_re25_valid_run S data buf buf_len).idx →
        c = visited c0 ∧
        (c.calib_pass = true ↔ c.re_min ≤ c.cal_re ∧ c.cal_re ≤ c.re_max)) ∧
      ((fsm_check_re25_valid_run S data buf buf_len).idx < i → c = c0) ∧
      ((fsm_check_re25_valid S (some data) (some buf) buf_len).ret < buf_len →
        i < (fsm_check_re25_valid_run S data buf buf_len).idx) := by
  have hn : 0 + data.dev_count.toNat ≤ data.cal_data.length := by omega
  obtain ⟨_, _, _, l4, l5, l6⟩ := check_loop_spec S buf_len data.dev_count.toNat
    { cal_data := data.cal_data, buf := buf, len := 0, idx := 0 } hn
  have hlt : i < data.cal_data.length := by omega
  have hc0 : data.cal_data[i]? = some data.cal_data[i] := List.getElem?_eq_getElem hlt
  by_cases hv : i ≤ (fsm_check_re25_valid_run S data buf buf_len).idx
  · obtain ⟨c0, e1, e2⟩ := l5 i (Nat.zero_le _) hv (by simp only; omega)
    simp only at e1
    refine ⟨_, c0, visited c0, rfl, rfl, e1, e2, ?_, ?_, ?_⟩
    · intro _
      refine ⟨rfl, ?_⟩
      simp only [visited, decide_eq_true_eq, ge_iff_le]
    · intro h; omega
    · intro h
      have := l6 h
      simp only [fsm_check_re25_valid_run]
      omega
  · have hgt : (fsm_check_re25_valid_run S data buf buf_len).idx < i := by omega
    refine ⟨_, data.cal_data[i], data.cal_data[i], rfl, rfl, hc0, ?_, ?_, ?_, ?_⟩
    · exact (l4 i hgt).trans hc0
    · intro h; omega
    · intro _; rfl
    · intro h
      have := l6 h
      simp only [fsm_check_re25_valid_run] at hgt
      omega

/-- Inside the buffer every sample is flagged: when `fsm_check_re25_valid`
returns a length below `buf_len`, every sample below `dev_count` has
`calib_pass` true exactly when `re_min <= cal_re <= re_max`. -/
theorem fsm_check_re25_valid_flags_below_limit (S : Nat) (data : fsm_calib_v2)
    (buf : List Char) (buf_len : Int) (i : Nat)
    (hcap : data.dev_count ≤ data.cal_data.length) (hi : (i : Int) < data.dev_count)
    (hret : (fsm_check_re25_valid S (some data) (some buf) buf_len).ret < buf_len) :
    ∃ d c0 c, (fsm_check_re25_valid S (some data) (some buf) buf_len).data = some d ∧
      data.cal_data[i]? = some c0 ∧ d.cal_data[i]? = some c ∧ c = visited c0 ∧
      (c.calib_pass = true ↔ c.re_min ≤ c.cal_re ∧ c.cal_re ≤ c.re_max) := by
  obtain ⟨d, c0, c, e1, _, e2, e3, h1, _, h3⟩ :=
    fsm_check_re25_valid_flags S data buf buf_len i hcap hi
  obtain ⟨hv, hiff⟩ := h1 (Nat.le_of_lt (h3 hret))
  exact ⟨d, c0, c, e1, e2, e3, hv, hiff⟩

/-- A pass that returns `buf_len` or more has left its loop by the `break`
and, when every record is shorter than `STRING_LEN_MAX` and the buffer has at
most `buf_len` bytes, has stored past the end of the buffer: the last record
or at least its NUL lies at offset `buf_len` or beyond. -/
theorem fsm_check_re25_valid_limit_overruns (S : Nat) (data : fsm_calib_v2)
    (buf : List Char) (buf_len : Int)
    (hrec : ∀ c ∈ data.cal_data, (fmt_record c).length < S)
    (hbuf : (buf.length : Int) ≤ buf_len) (hpos : 0 < buf_len)
    (hret : (fsm_check_re25_valid S (some data) (some buf) buf_len).ret ≥ buf_len) :
    (fsm_check_re25_valid_run S data buf buf_len).idx < data.dev_count.toNat ∧
    ∃ b, (fsm_check_re25_valid S (some data) (some buf) buf_len).buf = some b ∧
      buf_len < b.length ∧ buf.length < b.length := by
  have hret' : (fsm_check_re25_valid_run S data buf buf_len).len ≥ buf_len := hret
  have h1 := check_loop_limit S buf_len data.dev_count.toNat
    { cal_data := data.cal_data, buf := buf, len := 0, idx := 0 } hpos hret'
  have h2 := check_loop_extent S buf_len data.dev_count.toNat
    { cal_data := data.cal_data, buf := buf, len := 0, idx := 0 } hrec (le_refl _)
    (fun h => absurd h (lt_irrefl _))
  have h3 := h2.2 (lt_of_lt_of_le hpos hret')
  refine ⟨by simpa using h1, _, rfl, ?_, ?_⟩
  · show buf_len < ((fsm_check_re25_valid_run S data buf buf_len).buf.length : Int)
    have : (fsm_check_re25_valid_run S data buf buf_len).len + 1
        ≤ (fsm_check_re25_valid_run S data buf buf_len).buf.length := h3
    omega
  · have : (fsm_check_re25_valid_run S data buf buf_len).len + 1
        ≤ (fsm_check_re25_valid_run S data buf buf_len).buf.length := h3
    show buf.length < (fsm_check_re25_valid_run S data buf buf_len).buf.length
    omega

/-- C2 at a failing input: saving the two in-band samples `two_inband` returns
0 and writes both records, `[1,32768,25][2,33000,26]` (nothing is stored past
the buffer); loading that file into an empty set returns 0 with
`dev_count = 1` and only the first triple, for every bound of at least two on
the number of scans.  The second `sscanf` starts at offset 3, the number of
fields the first one converted. -/
theorem fsm_read_efsdata_after_save_two (fuel : Nat) :
    (fsm_write_efsdata 128 efs_ok none (some two_inband)).map efs_result.ret = some 0 ∧
    (fsm_write_efsdata 128 efs_ok none (some two_inband)).bind efs_result.file
      = some "[1,32768,25][2,33000,26]".toList ∧
    fsm_read_efsdata 128 (fuel + 2) efs_ok
        ((fsm_write_efsdata 128 efs_ok none (some two_inband)).bind efs_result.file)
        (some empty_set)
      = some
        { ret := 0
          file := some "[1,32768,25][2,33000,26]".toList
          data := some
            { dev_count := 1
              cal_data :=
                [ { channel := 1, cal_tempr := 25, cal_re := 32768, re_min := 0, re_max := 0
                    calib_pass := false },
                  { channel := 0, cal_tempr := 0, cal_re := 0, re_min := 0, re_max := 0
                    calib_pass := false } ] } } := by
  refine ⟨by decide, by decide, ?_⟩
  have hf : (fsm_write_efsdata 128 efs_ok none (some two_inband)).bind efs_result.file
      = some "[1,32768,25][2,33000,26]".toList := by decide
  rw [hf]
  rfl

/-! ## C3: the retry bound of register read and write -/

/-- C3: with `FSM_I2C_RETRY` between 1 and 255 (the retry counter is a
`uint8_t` and the loop body runs at least once), a device with a bus client
and a bus on which no transfer returns the number of messages handed to it,
`fsm_i2c_reg_read` and `fsm_i2c_reg_write` return `-EIO` after exactly
`FSM_I2C_RETRY` transfers, whatever the bound on transfers at or above
`FSM_I2C_RETRY`; `*pVal` is left untouched. -/
theorem fsm_i2c_reg_retry_bound (R : Int) (bus : i2c_bus) (dev : fsm_dev_t) (i2c : i2c_client)
    (reg val v0 fuel : Nat) (h1 : 1 ≤ R) (h255 : R ≤ 255) (hdev : dev.i2c = some i2c)
    (hfail : ∀ k msgs, (bus.transfer k msgs).1 ≠ (msgs.length : Int))
    (hfuel : R ≤ fuel) :
    fsm_i2c_reg_read R fuel bus (some dev) reg (some v0)
      = some { ret := - EIO, transfers := R.toNat, val := some v0 } ∧
    fsm_i2c_reg_write R fuel bus (some dev) reg val
      = some { ret := - EIO, transfers := R.toNat, val := none } := by
  constructor
  · obtain ⟨ret, rx, e, hne⟩ := i2c_transfer_loop_all_fail R bus (reg_read_msgs i2c reg) 2 h255
      (fun k => hfail k (reg_read_msgs i2c reg)) R.toNat fuel 0 0
      (by push_cast; omega) (by omega) (by omega)
    simp only [fsm_i2c_reg_read, hdev, e, Option.map_some', hne, ne_eq, not_false_eq_true,
      if_true, Nat.zero_add]
  · obtain ⟨ret, rx, e, hne⟩ := i2c_transfer_loop_all_fail R bus (reg_write_msgs i2c reg val) 1
      h255 (fun k => hfail k (reg_write_msgs i2c reg val)) R.toNat fuel 0 0
      (by push_cast; omega) (by omega) (by omega)
    simp only [fsm_i2c_reg_write, hdev, e, Option.map_some', hne, ne_eq, not_false_eq_true,
      if_true, Nat.zero_add]

/-- C3, witness: three retries on the dead bus. -/
theorem fsm_i2c_reg_retry_bound_witness :
    ((1 : Int) ≤ 3 ∧ (3 : Int) ≤ 255 ∧ timer_dev.i2c = some { addr := 52 } ∧
      (∀ k msgs, (dead_bus.transfer k msgs).1 ≠ (msgs.length : Int)) ∧
      (3 : Int) ≤ (3 : Nat)) ∧
    (fsm_i2c_reg_read 3 3 dead_bus (some timer_dev) 16 (some 0)
      = some { ret := - EIO, transfers := (3 : Int).toNat, val := some 0 } ∧
    fsm_i2c_reg_write 3 3 dead_bus (some timer_dev) 16 4660
      = some { ret := - EIO, transfers := (3 : Int).toNat, val := none }) :=
  have hfail : ∀ k msgs, (dead_bus.transfer k msgs).1 ≠ (msgs.length : Int) := by
    intro k msgs
    show (-121 : Int) ≠ (msgs.length : Int)
    omega
  ⟨⟨by decide, by decide, rfl, hfail, by decide⟩,
    fsm_i2c_reg_retry_bound 3 dead_bus timer_dev { addr := 52 } 16 4660 0 3
      (by decide) (by decide) rfl hfail (by decide)⟩

/-! ## C4: the send loop of the bulk write -/

theorem fsm_i2c_bulkwrite_loop_short (buf : List Nat) :
    ∀ fuel calls : Nat, fsm_i2c_bulkwrite_loop 3 short_bus buf 3 fuel 0 calls = none := by
  intro fuel
  induction fuel with
  | zero => intro _; rfl
  | succ f ih =>
    intro calls
    rw [fsm_i2c_bulkwrite_loop]
    have h0 : short_bus.master_send calls buf = 0 := rfl
    simp only [h0]
    exact ih (calls + 1)

/-- C4 at a failing input: with `FSM_I2C_RETRY = 3`, a two-byte payload and a
bus whose send reports the short count 0 each time, `fsm_i2c_bulkwrite` is
still in its loop after any number of sends: a non-negative short count does
not advance `retries`.  On the bus that fails with a negative error it
returns `-EIO` after 3 sends. -/
theorem fsm_i2c_bulkwrite_short_count_never_returns (fuel : Nat) :
    fsm_i2c_bulkwrite 3 fuel short_bus true (some timer_dev) 16 (some [1, 2]) 2 = none ∧
    fsm_i2c_bulkwrite 3 3 dead_bus true (some timer_dev) 16 (some [1, 2]) 2
      = some { ret := - EIO, transfers := 3, val := none } := by
  constructor
  · have := fsm_i2c_bulkwrite_loop_short (16 % 256 :: [1, 2].take (2 : Int).toNat) fuel 0
    have e : fsm_i2c_bulkwrite 3 fuel short_bus true (some timer_dev) 16 (some [1, 2]) 2
        = (fsm_i2c_bulkwrite_loop 3 short_bus (16 % 256 :: [1, 2].take (2 : Int).toNat) 3
            fuel 0 0).map fun r =>
          if r.1 ≠ 3 then ({ ret := - EIO, transfers := r.2, val := none } : i2c_result)
          else { ret := 0, transfers := r.2, val := none } := rfl
    rw [e, this]
    rfl
  · decide

/-! ## C5: argument validation of the transport -/

/-- C5, as amended: `fsm_i2c_reg_read`, `fsm_i2c_reg_write` and
`fsm_i2c_bulkwrite` return `-EINVAL` without any bus transfer when the device
is null, when the device has no bus client, and when the buffer (`pVal` of the
read, `data` of the bulk write) is null.  The length of a bulk write is not
examined. -/
theorem fsm_i2c_invalid_argument (R : Int) (fuel : Nat) (bus : i2c_bus) (alloc_ok : Bool)
    (dev : fsm_dev_t) (reg val : Nat) (pVal : Option Nat) (data : Option (List Nat))
    (len : Int) :
    fsm_i2c_reg_read R fuel bus none reg pVal
      = some { ret := - EINVAL, transfers := 0, val := pVal } ∧
    fsm_i2c_reg_read R fuel bus (some { dev with i2c := none }) reg pVal
      = some { ret := - EINVAL, transfers := 0, val := pVal } ∧
    fsm_i2c_reg_read R fuel bus (some dev) reg none
      = some { ret := - EINVAL, transfers := 0, val := none } ∧
    fsm_i2c_reg_write R fuel bus none reg val
      = some { ret := - EINVAL, transfers := 0, val := none } ∧
    fsm_i2c_reg_write R fuel bus (some { dev with i2c := none }) reg val
      = some { ret := - EINVAL, transfers := 0, val := none } ∧
    fsm_i2c_bulkwrite R fuel bus alloc_ok none reg data len
      = some { ret := - EINVAL, transfers := 0, val := none } ∧
    fsm_i2c_bulkwrite R fuel bus alloc_ok (some { dev with i2c := none }) reg data len
      = some { ret := - EINVAL, transfers := 0, val := none } ∧
    fsm_i2c_bulkwrite R fuel bus alloc_ok (some dev) reg none len
      = some { ret := - EINVAL, transfers := 0, val := none } := by
  obtain ⟨i2c, wq, irq, id, rc⟩ := dev
  refine ⟨rfl, rfl, ?_, rfl, rfl, rfl, rfl, ?_⟩
  · cases i2c <;> rfl
  · cases i2c <;> rfl

/-- C5 as stated fails: a bulk write of length 0 to a valid device with a
valid buffer is not rejected; it sends the register byte and returns 0. -/
theorem fsm_i2c_bulkwrite_zero_length_counterexample :
    fsm_i2c_bulkwrite 3 3 good_bus true (some timer_dev) 16 (some []) 0
      = some { ret := 0, transfers := 1, val := none } ∧
    (0 : Int) ≠ - EINVAL := by
  refine ⟨by decide, by decide⟩

/-! ## C6: saving a set without a valid sample -/

/-- C6, as amended: for a calibration set with `dev_count > 0` none of whose
samples lies within its band, `fsm_write_efsdata` returns `-EINVAL` whenever
the file can be opened; a file that existed keeps its content, a file that did
not exist has been created empty, because the file is opened with `O_CREAT`
before the samples are validated.  When the open fails its error is returned
and the file is as before. -/
theorem fsm_write_efsdata_nothing_valid (S : Nat) (env : efs_env) (file : efs_file)
    (d : fsm_calib_v2) (hcount : 0 < d.dev_count)
    (hnone : ∀ (i : Nat) (c : fsm_cal_data), (i : Int) < d.dev_count →
      d.cal_data[i]? = some c → ¬ (c.cal_re ≥ c.re_min ∧ c.cal_re ≤ c.re_max)) :
    (env.open_fail = none →
      (fsm_write_efsdata S env file (some d)).map efs_result.ret = some (- EINVAL) ∧
      (∀ content, file = some content →
        (fsm_write_efsdata S env file (some d)).map efs_result.file = some (some content)) ∧
      (file = none →
        (fsm_write_efsdata S env file (some d)).map efs_result.file = some (some []))) ∧
    (∀ e, env.open_fail = some e →
      (fsm_write_efsdata S env file (some d)).map efs_result.ret = some e ∧
      (fsm_write_efsdata S env file (some d)).map efs_result.file = some file) := by
  have hloop := check_loop_nothing_valid S S d.dev_count.toNat
    { cal_data := d.cal_data, buf := zero_buf S, len := 0, idx := 0 }
    (by
      intro i c _ h2 h3
      simp only at h2 h3
      exact hnone i c (by omega) h3)
  have hlen : (fsm_check_re25_valid S (some d) (some (zero_buf S)) S).ret = 0 := by
    simpa [fsm_check_re25_valid, fsm_check_re25_valid_run] using hloop.1
  have hbuf : (fsm_check_re25_valid S (some d) (some (zero_buf S)) S).buf
      = some (zero_buf S) := by
    simpa [fsm_check_re25_valid, fsm_check_re25_valid_run] using hloop.2
  have hin : ¬ ((fsm_check_re25_valid S (some d) (some (zero_buf S)) S).buf.getD []).length
      > S := by
    rw [hbuf]
    simp [zero_buf]
  have hnot : ¬ d.dev_count ≤ 0 := by omega
  constructor
  · intro ho
    have e1 : fsm_write_efsdata S env file (some d)
        = some { ret := - EINVAL, file := some (file.getD [])
                 data := (fsm_check_re25_valid S (some d) (some (zero_buf S)) S).data } := by
      simp only [fsm_write_efsdata, if_neg hnot, ho, if_neg hin, hlen, le_refl, if_true]
    rw [e1]
    refine ⟨rfl, ?_, ?_⟩
    · intro content hc; subst hc; rfl
    · intro hc; subst hc; rfl
  · intro e ho
    have e1 : fsm_write_efsdata S env file (some d)
        = some { ret := e, file := file, data := some d } := by
      simp only [fsm_write_efsdata, if_neg hnot, ho]
    rw [e1]
    exact ⟨rfl, rfl⟩

/-- C6, witness: two samples outside their bands, the file holding `abc`. -/
theorem fsm_write_efsdata_nothing_valid_witness :
    (0 < two_outside.dev_count ∧
      ∀ (i : Nat) (c : fsm_cal_data), (i : Int) < two_outside.dev_count →
        two_outside.cal_data[i]? = some c → ¬ (c.cal_re ≥ c.re_min ∧ c.cal_re ≤ c.re_max)) ∧
    ((efs_ok.open_fail = none →
      (fsm_write_efsdata 128 efs_ok (some [ 'a', 'b', 'c']) (some two_outside)).map
          efs_result.ret = some (- EINVAL) ∧
      (∀ content, some [ 'a', 'b', 'c'] = some content →
        (fsm_write_efsdata 128 efs_ok (some [ 'a', 'b', 'c']) (some two_outside)).map
          efs_result.file = some (some content)) ∧
      (some [ 'a', 'b', 'c'] = none →
        (fsm_write_efsdata 128 efs_ok (some [ 'a', 'b', 'c']) (some two_outside)).map
          efs_result.file = some (some []))) ∧
    (∀ e, efs_ok.open_fail = some e →
      (fsm_write_efsdata 128 efs_ok (some [ 'a', 'b', 'c']) (some two_outside)).map
          efs_result.ret = some e ∧
      (fsm_write_efsdata 128 efs_ok (some [ 'a', 'b', 'c']) (some two_outside)).map
          efs_result.file = some (some [ 'a', 'b', 'c']))) :=
  have h : ∀ (i : Nat) (c : fsm_cal_data), (i : Int) < two_outside.dev_count →
      two_outside.cal_data[i]? = some c → ¬ (c.cal_re ≥ c.re_min ∧ c.cal_re ≤ c.re_max) := by
    intro i c hi hc
    have hi2 : i < 2 := by
      have : two_outside.dev_count = 2 := rfl
      omega
    interval_cases i
    · simp [two_outside] at hc
      subst hc; decide
    · simp [two_outside] at hc
      subst hc; decide
  ⟨⟨by decide, h⟩,
    fsm_write_efsdata_nothing_valid 128 efs_ok (some [ 'a', 'b', 'c']) two_outside
      (by decide) h⟩

/-- C6 as stated fails: with the file absent and two samples outside their
bands, `fsm_write_efsdata` returns `-EINVAL` and the file exists afterwards. -/
theorem fsm_write_efsdata_nothing_valid_counterexample :
    0 < two_outside.dev_count ∧
    (fsm_write_efsdata 128 efs_ok none (some two_outside)).map efs_result.ret
      = some (- EINVAL) ∧
    (fsm_write_efsdata 128 efs_ok none (some two_outside)).map efs_result.file
      = some (some []) ∧
    (fsm_write_efsdata 128 efs_ok none (some two_outside)).map efs_result.file
      ≠ some none := by
  refine ⟨by decide, by decide, by decide, by decide⟩

/-! ## C7: the length of the serialized text -/

/-- C7 at a failing input: with `STRING_LEN_MAX = 128` and four in-band
samples of 37 characters each, `fsm_check_re25_valid` returns 148 and the
buffer memory it has written reaches 149 bytes: the fourth record lies at
offsets 111..147 and its NUL at 148 of a buffer of 128 bytes.  With
`STRING_LEN_MAX = 256` seven such samples give 259 and 260 bytes in the same
way. -/
theorem fsm_check_re25_valid_exceeds_buffer :
    (fsm_check_re25_valid 128 (some four_wide) (some (zero_buf 128)) 128).ret = 148 ∧
    (fsm_check_re25_valid 128 (some four_wide) (some (zero_buf 128)) 128).buf.map List.length
      = some 149 ∧
    (zero_buf 128).length = 128 ∧
    (fsm_check_re25_valid 256 (some seven_wide) (some (zero_buf 256)) 256).ret = 259 ∧
    (fsm_check_re25_valid 256 (some seven_wide) (some (zero_buf 256)) 256).buf.map List.length
      = some 260 ∧
    (zero_buf 256).length = 256 := by
  refine ⟨by decide, by decide, by decide, by decide, by decide, by decide⟩

/-- Once the limit is reached the save has no defined result: when the file
can be opened, every record is shorter than `STRING_LEN_MAX` and
`fsm_check_re25_valid` returns `STRING_LEN_MAX` or more, the stack array of
`fsm_write_efsdata` has been overrun. -/
theorem fsm_write_efsdata_limit_undefined (S : Nat) (env : efs_env) (file : efs_file)
    (d : fsm_calib_v2) (hcount : 0 < d.dev_count) (hopen : env.open_fail = none)
    (hrec : ∀ c ∈ d.cal_data, (fmt_record c).length < S) (hpos : 0 < S)
    (hret : (fsm_check_re25_valid S (some d) (some (zero_buf S)) S).ret ≥ S) :
    fsm_write_efsdata S env file (some d) = none := by
  obtain ⟨_, b, hb, hlt, _⟩ := fsm_check_re25_valid_limit_overruns S d (zero_buf S) S hrec
    (by simp [zero_buf]) (by exact_mod_cast hpos) hret
  have hnot : ¬ d.dev_count ≤ 0 := by omega
  have hover : ((fsm_check_re25_valid S (some d) (some (zero_buf S)) S).buf.getD []).length
      > S := by
    rw [hb]
    simp only [Option.getD_some]
    exact_mod_cast hlt
  simp only [fsm_write_efsdata, if_neg hnot, hopen, if_pos hover]

/-! ## C8: the recovery ceiling -/

/-- C8: for a timer-mode device with `rec_count = 0` whose recovery routine
adds one to `rec_count` on every pass (the temperature read leaves it alone,
monitoring is not skipped), enabling the monitor queues the probe, and after
`n` turns of the worker exactly `min n 5` recovery passes have run,
`rec_count` is `min n 5`, and the probe is pending if and only if `n < 5`:
passes 1 to 4 queue the next probe, pass 5 does not, and nothing runs after
it. -/
theorem fsm_work_monitor_ceiling (cfg : fsm_config_t) (ext : monitor_ext) (dev : fsm_dev_t)
    (n : Nat) (hskip : cfg.skip_monitor = false) (hwq : dev.fsm_wq = true)
    (htimer : dev.use_irq = false) (h0 : dev.rec_count = 0)
    (hrec : ∀ d, (ext.fsm_dev_recover d).rec_count = d.rec_count + 1)
    (htmp : ∀ d, (ext.fsm_get_spkr_tempr d).rec_count = d.rec_count) :
    ∃ st0, fsm_set_monitor (some cfg) ext (some (monitor_idle dev)) true = (0, some st0) ∧
      st0.pending = true ∧
      (run_probes (some cfg) ext n st0).passes = min n 5 ∧
      (run_probes (some cfg) ext n st0).dev.rec_count = min n 5 ∧
      ((run_probes (some cfg) ext n st0).pending = true ↔ n < 5) ∧
      (run_probes (some cfg) ext n st0).running = false := by
  refine ⟨queue_delayed_work (monitor_idle dev), ?_, rfl, ?_⟩
  · simp [fsm_set_monitor, monitor_idle, hwq, htimer]
  · obtain ⟨a, b, c, d⟩ := run_probes_counting cfg ext hskip hrec htmp n
      (queue_delayed_work (monitor_idle dev)) rfl
      (by simp [queue_delayed_work, monitor_idle, h0])
      (by simp [queue_delayed_work, monitor_idle])
      (by simp [queue_delayed_work, monitor_idle])
    have hp : (queue_delayed_work (monitor_idle dev)).passes = 0 := rfl
    rw [hp, Nat.zero_add] at a
    refine ⟨a, ?_, ?_, d⟩
    · rw [b, a]
    · rw [c, a]
      omega

/-- C8, witness: seven turns of the worker on the device that always shows a
fault. -/
theorem fsm_work_monitor_ceiling_witness :
    (plain_cfg.skip_monitor = false ∧ timer_dev.fsm_wq = true ∧ timer_dev.use_irq = false ∧
      timer_dev.rec_count = 0 ∧
      (∀ d, (faulty_ext.fsm_dev_recover d).rec_count = d.rec_count + 1) ∧
      (∀ d, (faulty_ext.fsm_get_spkr_tempr d).rec_count = d.rec_count)) ∧
    ∃ st0, fsm_set_monitor (some plain_cfg) faulty_ext (some (monitor_idle timer_dev)) true
        = (0, some st0) ∧
      st0.pending = true ∧
      (run_probes (some plain_cfg) faulty_ext 7 st0).passes = min 7 5 ∧
      (run_probes (some plain_cfg) faulty_ext 7 st0).dev.rec_count = min 7 5 ∧
      ((run_probes (some plain_cfg) faulty_ext 7 st0).pending = true ↔ 7 < 5) ∧
      (run_probes (some plain_cfg) faulty_ext 7 st0).running = false :=
  ⟨⟨rfl, rfl, rfl, rfl, fun _ => rfl, fun _ => rfl⟩,
    fsm_work_monitor_ceiling plain_cfg faulty_ext timer_dev 7 rfl rfl rfl rfl
      (fun _ => rfl) (fun _ => rfl)⟩

/-! ## C9: disabling the monitor while a pass is in flight -/

/-- C9 at a failing interleaving: the monitor of a healthy timer-mode device
is enabled, the worker starts the probe pass (the work is no longer pending),
and `fsm_set_monitor(dev, false)` is called.  It returns 0 at once and changes
nothing, the pass is still running; when the pass ends it queues the next
probe, which is pending although monitoring was disabled and never enabled
again.  Called while the work is pending, the same disable cancels it. -/
theorem fsm_set_monitor_disable_in_flight :
    ∃ s1 s3,
      fsm_set_monitor (some plain_cfg) healthy_ext (some (monitor_idle timer_dev)) true
        = (0, some s1) ∧
      (worker_begin s1).running = true ∧ (worker_begin s1).pending = false ∧
      fsm_set_monitor (some plain_cfg) healthy_ext (some (worker_begin s1)) false
        = (0, some s3) ∧
      s3.running = true ∧
      (worker_end (some plain_cfg) healthy_ext s3).pending = true ∧
      fsm_set_monitor (some plain_cfg) healthy_ext (some s1) false
        = (0, some (monitor_idle timer_dev)) := by
  refine ⟨queue_delayed_work (monitor_idle timer_dev),
    worker_begin (queue_delayed_work (monitor_idle timer_dev)), ?_⟩
  decide

/-! ## C10: a failure while the rail is switched on -/

/-- C10 at a failing input: the rail is off, `regulator_get` succeeds and
`regulator_enable` returns `-EIO`.  `fsm_vddd_on` returns `-EIO` with
`vddd_on = 1` and the regulator kept, and a second call, now with a regulator
that would work, returns 0 without a single regulator call.  When it is
`regulator_get` that fails, the state is left as it was and the second call
does try again. -/
theorem fsm_vddd_on_enable_failure :
    (fsm_vddd_on true { get := .handle 1, enable := - EIO } rail_off).ret = - EIO ∧
    (fsm_vddd_on true { get := .handle 1, enable := - EIO } rail_off).state
      = { cfg := some { plain_cfg with vddd_on := 1 }, g_fsm_vdd := some 1 } ∧
    fsm_vddd_on true { get := .handle 1, enable := 0 }
        (fsm_vddd_on true { get := .handle 1, enable := - EIO } rail_off).state
      = { ret := 0
          state := { cfg := some { plain_cfg with vddd_on := 1 }, g_fsm_vdd := some 1 }
          calls := [] } ∧
    fsm_vddd_on true { get := .err (- ENOENT), enable := 0 } rail_off
      = { ret := - ENOENT, state := rail_off, calls := [.get] } ∧
    (fsm_vddd_on true { get := .handle 1, enable := 0 }
        (fsm_vddd_on true { get := .err (- ENOENT), enable := 0 } rail_off).state).calls
      = [.get, .set_voltage 1800000 1800000, .enable] := by
  decide

/-! ## C11: the byte order of a register value -/

theorem reg_write_buffer_bytes (reg v : Nat) (hreg : reg < 256) (hv : v < 65536) :
    reg_write_buffer reg v = [reg, v / 256, v % 256] := by
  have h1 : reg % 256 = reg := Nat.mod_eq_of_lt hreg
  have h2 : (v >>> 8) &&& 255 = v / 256 := by
    have := Nat.and_pow_two_sub_one_eq_mod (v >>> 8) 8
    simp only [Nat.shiftRight_eq_div_pow] at this ⊢
    rw [show (255 : Nat) = 2 ^ 8 - 1 from rfl, this]
    apply Nat.mod_eq_of_lt
    omega
  have h3 : v &&& 255 = v % 256 := by
    have := Nat.and_pow_two_sub_one_eq_mod v 8
    rw [show (255 : Nat) = 2 ^ 8 - 1 from rfl, this]
  simp only [reg_write_buffer, h1, h2, h3]

theorem reg_decode_bytes (v : Nat) (hv : v < 65536) : reg_decode [v / 256, v % 256] = v := by
  have hhi : v / 256 % 256 = v / 256 := Nat.mod_eq_of_lt (by omega)
  have hlo : v % 256 % 256 = v % 256 := Nat.mod_eq_of_lt (by omega)
  have hor : (v / 256) <<< 8 ||| v % 256 = 2 ^ 8 * (v / 256) + v % 256 := by
    rw [Nat.shiftLeft_eq, Nat.mul_comm]
    exact (Nat.mul_add_lt_is_or (by omega) (v / 256)).symm
  have e : reg_decode [v / 256, v % 256]
      = (((v / 256 % 256) <<< 8) ||| (v % 256 % 256)) % 65536 := rfl
  rw [e, hhi, hlo, hor]
  omega

/-- C11: for every register address `reg` (a `uint8_t`) and every 16-bit
value `v`, the buffer of `fsm_i2c_reg_write` is `[reg, v / 256, v % 256]`, high
byte first, and its single message carries these three bytes, which is what a
bus accepting only that message sees; the value `fsm_i2c_reg_read` decodes
from the two data bytes of that buffer is `v`, and a read on a bus that
delivers these two bytes stores `v` in `*pVal`. -/
theorem fsm_i2c_reg_big_endian (R : Int) (fuel : Nat) (dev : fsm_dev_t) (i2c : i2c_client)
    (reg v v0 : Nat) (hreg : reg < 256) (hv : v < 65536) (hdev : dev.i2c = some i2c) :
    reg_write_buffer reg v = [reg, v / 256, v % 256] ∧
    reg_write_msgs i2c reg v
      = [ { addr := i2c.addr, flags := 0, len := 3, buf := [reg, v / 256, v % 256] } ] ∧
    fsm_i2c_reg_write R (fuel + 1)
        (expecting_bus
          [ { addr := i2c.addr, flags := 0, len := 3, buf := [reg, v / 256, v % 256] } ] [])
        (some dev) reg v
      = some { ret := 0, transfers := 1, val := none } ∧
    reg_decode (reg_write_buffer reg v).tail = v ∧
    fsm_i2c_reg_read R (fuel + 1)
        (expecting_bus (reg_read_msgs i2c reg) (reg_write_buffer reg v).tail)
        (some dev) reg (some v0)
      = some { ret := 0, transfers := 1, val := some v } := by
  have hb := reg_write_buffer_bytes reg v hreg hv
  have hd := reg_decode_bytes v hv
  have hm : reg_write_msgs i2c reg v
      = [ { addr := i2c.addr, flags := 0, len := 3, buf := [reg, v / 256, v % 256] } ] := by
    simp only [reg_write_msgs, hb]
  refine ⟨hb, hm, ?_, ?_, ?_⟩
  · simp [fsm_i2c_reg_write, hdev, hm, i2c_transfer_loop, expecting_bus]
  · rw [hb]; exact hd
  · rw [hb]
    simp [fsm_i2c_reg_read, hdev, i2c_transfer_loop, expecting_bus, reg_read_msgs]
    exact hd

/-- C11, witness: register 0x10 and the value 0x1234 on the device at 0x34. -/
theorem fsm_i2c_reg_big_endian_witness :
    ((16 : Nat) < 256 ∧ (4660 : Nat) < 65536 ∧ timer_dev.i2c = some { addr := 52 }) ∧
    (reg_write_buffer 16 4660 = [16, 4660 / 256, 4660 % 256] ∧
    reg_write_msgs { addr := 52 } 16 4660
      = [ { addr := ({ addr := 52 } : i2c_client).addr, flags := 0, len := 3
            buf := [16, 4660 / 256, 4660 % 256] } ] ∧
    fsm_i2c_reg_write 3 (0 + 1)
        (expecting_bus
          [ { addr := ({ addr := 52 } : i2c_client).addr, flags := 0, len := 3
              buf := [16, 4660 / 256, 4660 % 256] } ] [])
        (some timer_dev) 16 4660
      = some { ret := 0, transfers := 1, val := none } ∧
    reg_decode (reg_write_buffer 16 4660).tail = 4660 ∧
    fsm_i2c_reg_read 3 (0 + 1)
        (expecting_bus (reg_read_msgs { addr := 52 } 16) (reg_write_buffer 16 4660).tail)
        (some timer_dev) 16 (some 0)
      = some { ret := 0, transfers := 1, val := some 4660 }) :=
  ⟨⟨by decide, by decide, rfl⟩,
    fsm_i2c_reg_big_endian 3 0 timer_dev { addr := 52 } 16 4660 0 (by decide) (by decide) rfl⟩

/-! ## Lemmas about the record scanner -/

theorem num_char_ne_bracket (c : Char) (h : num_char c = true) : c ≠ '[' := by
  intro hc
  subst hc
  revert h
  decide

theorem skip_spaces_split (s : List Char) :
    ∃ pre, s = pre ++ skip_spaces s ∧ ∀ c ∈ pre, num_char c = true := by
  induction s with
  | nil => exact ⟨[], rfl, by simp⟩
  | cons c cs ih =>
    by_cases hc : isspace c = true
    · obtain ⟨pre, e, hp⟩ := ih
      refine ⟨c :: pre, ?_, ?_⟩
      · simp only [skip_spaces, hc, if_true, List.cons_append]
        rw [← e]
      · intro x hx
        rcases List.mem_cons.mp hx with rfl | hx
        · simp [num_char, hc]
        · exact hp x hx
    · refine ⟨[], ?_, by simp⟩
      simp only [skip_spaces, hc, List.nil_append]
      rfl

theorem simple_strtoull_split (s : List Char) :
    ∀ acc, ∃ pre, s = pre ++ (simple_strtoull acc s).2 ∧ ∀ c ∈ pre, num_char c = true := by
  induction s with
  | nil => intro acc; exact ⟨[], rfl, by simp⟩
  | cons c cs ih =>
    intro acc
    by_cases hc : isdigit c = true
    · obtain ⟨pre, e, hp⟩ := ih (acc * 10 + (c.toNat - 48))
      refine ⟨c :: pre, ?_, ?_⟩
      · simp only [simple_strtoull, hc, if_true, List.cons_append]
        rw [← e]
      · intro x hx
        rcases List.mem_cons.mp hx with rfl | hx
        · simp [num_char, hc]
        · exact hp x hx
    · refine ⟨[], ?_, by simp⟩
      simp only [simple_strtoull, hc, List.nil_append]
      rfl

theorem scan_d_split (s : List Char) (v : Int) (rest : List Char)
    (h : scan_d s = some (v, rest)) :
    ∃ pre, s = pre ++ rest ∧ pre ≠ [] ∧ ∀ c ∈ pre, num_char c = true := by
  obtain ⟨sp, e, hsp⟩ := skip_spaces_split s
  unfold scan_d at h
  split at h
  · cases h
  · rename_i d r hs
    split at h
    · rename_i hd
      obtain ⟨pre, e2, hp⟩ := simple_strtoull_split (d :: r) 0
      simp only [Option.some.injEq, Prod.mk.injEq] at h
      obtain ⟨_, hr⟩ := h
      refine ⟨sp ++ '-' :: pre, ?_, by simp, ?_⟩
      · rw [e, hs, e2, hr]; simp
      · intro x hx
        rcases List.mem_append.mp hx with hx | hx
        · exact hsp x hx
        · rcases List.mem_cons.mp hx with rfl | hx
          · decide
          · exact hp x hx
    · cases h
  · rename_i d r hs hneg
    split at h
    · rename_i hd
      obtain ⟨pre, e2, hp⟩ := simple_strtoull_split r (0 * 10 + (d.toNat - 48))
      simp only [Option.some.injEq, Prod.mk.injEq] at h
      obtain ⟨_, hr⟩ := h
      have hr2 : (simple_strtoull (0 * 10 + (d.toNat - 48)) r).2 = rest := by
        rw [← hr]; simp only [simple_strtoull, hd, if_true]
      refine ⟨sp ++ d :: pre, ?_, by simp, ?_⟩
      · rw [e, hneg, e2, hr2]; simp
      · intro x hx
        rcases List.mem_append.mp hx with hx | hx
        · exact hsp x hx
        · rcases List.mem_cons.mp hx with rfl | hx
          · simp [num_char, hd]
          · exact hp x hx
    · cases h
theorem sscanf_record_of_ne (c : Char) (s : List Char) (h : c ≠ '[') :
    sscanf_record (c :: s) = [] := by
  unfold sscanf_record
  split
  · rename_i s1 heq
    simp only [List.cons.injEq] at heq
    exact absurd heq.1 h
  · rfl

theorem sscanf_record_shape (str : List Char) (h : sscanf_record str ≠ []) :
    ∃ body tail, str = '[' :: (body ++ tail) ∧
      (sscanf_record str).length ≤ body.length ∧ (sscanf_record str).length ≤ 3 ∧
      ∀ c ∈ body, num_char c = true := by
  unfold sscanf_record at h ⊢
  split at h
  swap
  · exact absurd rfl h
  rename_i s1
  cases h1 : scan_d s1 with
  | none => simp [h1] at h
  | some p1 =>
    obtain ⟨v1, s2⟩ := p1
    obtain ⟨pre1, e1, n1, hp1⟩ := scan_d_split s1 v1 s2 h1
    have l1 : 1 ≤ pre1.length := by
      cases pre1 with
      | nil => exact absurd rfl n1
      | cons _ _ => simp
    simp only
    split
    swap
    · exact ⟨pre1, s2, by rw [e1], by simpa using l1, by simp, hp1⟩
    rename_i s3
    cases h2 : scan_d s3 with
    | none => exact ⟨pre1, ',' :: s3, by rw [e1], by simpa using l1, by simp, hp1⟩
    | some p2 =>
      obtain ⟨v2, s4⟩ := p2
      obtain ⟨pre2, e2, n2, hp2⟩ := scan_d_split s3 v2 s4 h2
      have hb2 : ∀ c ∈ pre1 ++ ',' :: pre2, num_char c = true := by
        intro x hx
        rcases List.mem_append.mp hx with hx | hx
        · exact hp1 x hx
        · rcases List.mem_cons.mp hx with rfl | hx
          · decide
          · exact hp2 x hx
      simp only
      split
      swap
      · exact ⟨pre1 ++ ',' :: pre2, s4, by rw [e1, e2]; simp,
          by simp; omega, by simp, hb2⟩
      rename_i s5
      cases h3 : scan_d s5 with
      | none =>
        exact ⟨pre1 ++ ',' :: pre2, ',' :: s5, by rw [e1, e2]; simp,
          by simp; omega, by simp, hb2⟩
      | some p3 =>
        obtain ⟨v3, s6⟩ := p3
        obtain ⟨pre3, e3, n3, hp3⟩ := scan_d_split s5 v3 s6 h3
        refine ⟨pre1 ++ ',' :: pre2 ++ ',' :: pre3, s6, by rw [e1, e2, e3]; simp,
          by simp; omega, by simp, ?_⟩
        intro x hx
        rcases List.mem_append.mp hx with hx | hx
        · exact hb2 x hx
        · rcases List.mem_cons.mp hx with rfl | hx
          · decide
          · exact hp3 x hx

theorem drop_takeWhile_comm (p : Char → Bool) (l : List Char) :
    ∀ k, k ≤ (l.takeWhile p).length → (l.drop k).takeWhile p = (l.takeWhile p).drop k := by
  induction l with
  | nil => intro k _; simp
  | cons c cs ih =>
    intro k hk
    cases k with
    | zero => rfl
    | succ k =>
      by_cases hc : p c = true
      · simp only [List.takeWhile_cons, hc, if_true, List.length_cons, List.drop_succ_cons] at hk ⊢
        exact ih k (by omega)
      · simp [List.takeWhile_cons, hc] at hk

theorem after_match_num_char (buf : List Char) (h : sscanf_record (cstr buf 0) ≠ []) :
    ∃ c rest, cstr buf (sscanf_record (cstr buf 0)).length = c :: rest ∧
      num_char c = true := by
  obtain ⟨body, tail, e, hlen, _, hbody⟩ := sscanf_record_shape (cstr buf 0) h
  have hpos : 1 ≤ (sscanf_record (cstr buf 0)).length := by
    cases hv : sscanf_record (cstr buf 0) with
    | nil => exact absurd hv h
    | cons _ _ => simp
  generalize (sscanf_record (cstr buf 0)).length = k at hlen hpos
  have e0 : cstr buf 0 = buf.takeWhile (fun c => c != NUL) := rfl
  have ek : cstr buf k = (cstr buf 0).drop k := by
    rw [e0]
    apply drop_takeWhile_comm
    rw [← e0, e]
    simp; omega
  obtain ⟨j, rfl⟩ : ∃ j, k = j + 1 := ⟨k - 1, by omega⟩
  rw [ek, e, List.drop_succ_cons]
  have hj : j < body.length := by omega
  have : (body ++ tail).drop j = body[j] :: ((body ++ tail).drop (j + 1)) := by
    have hj2 : j < (body ++ tail).length := by simp; omega
    rw [List.drop_eq_getElem_cons hj2, List.getElem_append_left hj]
  rw [this]
  exact ⟨_, _, rfl, hbody _ (List.getElem_mem hj)⟩

theorem second_scan_fails (buf : List Char) (h : sscanf_record (cstr buf 0) ≠ []) :
    sscanf_record (cstr buf (sscanf_record (cstr buf 0)).length) = [] := by
  obtain ⟨c, rest, e, hc⟩ := after_match_num_char buf h
  rw [e]
  exact sscanf_record_of_ne _ _ (num_char_ne_bracket _ hc)

theorem set_same_getElem? (l : List fsm_cal_data) (k : Nat) (c : fsm_cal_data)
    (h : l[k]? = some c) : l.set k c = l := by
  apply List.ext_getElem?
  intro i
  rw [List.getElem?_set]
  split
  · rename_i hki
    subst hki
    split
    · exact h.symm
    · rename_i hlt
      rw [List.getElem?_eq_none (by omega)]
  · rfl

theorem read_loop_two_scans (buf : List Char) (d : fsm_calib_v2) (fuel : Nat) :
    ∃ d', fsm_read_efsdata_loop buf (fuel + 2) d 0 = some d' ∧
      (d'.dev_count = d.dev_count ∨ d'.dev_count = d.dev_count + 1) ∧
      ∀ i, i ≠ d.dev_count.toNat → d'.cal_data[i]? = d.cal_data[i]? := by
  rw [fsm_read_efsdata_loop]
  simp only [Int.toNat_zero]
  by_cases hvs : sscanf_record (cstr buf 0) = []
  · simp only [hvs, List.length_nil, Nat.cast_zero, le_refl, if_true]
    cases hk : d.cal_data[d.dev_count.toNat]? with
    | none => exact ⟨d, rfl, Or.inl rfl, fun _ _ => rfl⟩
    | some c =>
      refine ⟨_, rfl, Or.inl rfl, ?_⟩
      intro i hi
      simp only
      rw [List.getElem?_set_ne (Ne.symm hi)]
  · have hpos : ¬ ((sscanf_record (cstr buf 0)).length : Int) ≤ 0 := by
      cases hv : sscanf_record (cstr buf 0) with
      | nil => exact absurd hv hvs
      | cons _ _ => simp
    have h2 := second_scan_fails buf hvs
    simp only [if_neg hpos]
    rw [fsm_read_efsdata_loop]
    simp only [Int.toNat_ofNat, h2, List.length_nil, Nat.cast_zero, le_refl, if_true]
    have hst : ∀ c : fsm_cal_data, store_fields c [] = c := fun _ => rfl
    cases hk : d.cal_data[d.dev_count.toNat]? with
    | none =>
      simp only
      cases hk2 : d.cal_data[(d.dev_count + 1).toNat]? with
      | none => exact ⟨_, rfl, Or.inr rfl, fun _ _ => rfl⟩
      | some c2 =>
        refine ⟨_, rfl, Or.inr rfl, ?_⟩
        intro i _
        simp only [hst]
        rw [set_same_getElem? _ _ _ hk2]
    | some c =>
      simp only
      cases hk2 : (d.cal_data.set d.dev_count.toNat
          (store_fields c (sscanf_record (cstr buf 0))))[(d.dev_count + 1).toNat]? with
      | none =>
        refine ⟨_, rfl, Or.inr rfl, ?_⟩
        intro i hi
        simp only
        rw [List.getElem?_set_ne (Ne.symm hi)]
      | some c2 =>
        refine ⟨_, rfl, Or.inr rfl, ?_⟩
        intro i hi
        simp only [hst]
        rw [set_same_getElem? _ _ _ hk2, List.getElem?_set_ne (Ne.symm hi)]

/-! ## C12: the parse loop of the load -/

/-- C12: for every buffer the first `sscanf` of the parse loop converts at
most 3 fields, and when it converts any, the string at the offset equal to
their number starts with a character other than `[` (white space, `-`, a digit
or a comma), so the second `sscanf` converts nothing.  Hence the loop, entered
with `dev_count = 0`, ends within two scans (any bound of at least two gives a
result) with `dev_count` 0 or 1 and every slot but the first as it was; and
for every file, file system answer and calibration set `fsm_read_efsdata`
returns, leaves `dev_count <= 1` when it was not positive, and never touches a
slot behind the first. -/
theorem fsm_read_efsdata_two_scans (S fuel : Nat) (env : efs_env) (file : efs_file)
    (d : fsm_calib_v2) (buf : List Char) :
    (sscanf_record (cstr buf 0)).length ≤ 3 ∧
    (sscanf_record (cstr buf 0) ≠ [] →
      (cstr buf (sscanf_record (cstr buf 0)).length).head? ≠ some '[' ∧
      sscanf_record (cstr buf (sscanf_record (cstr buf 0)).length) = []) ∧
    (∃ d1, fsm_read_efsdata_loop buf (fuel + 2) { d with dev_count := 0 } 0 = some d1 ∧
      (d1.dev_count = 0 ∨ d1.dev_count = 1) ∧
      ∀ i, 1 ≤ i → d1.cal_data[i]? = d.cal_data[i]?) ∧
    (∃ r d1, fsm_read_efsdata S (fuel + 2) env file (some d) = some r ∧
      r.data = some d1 ∧ r.file = file ∧
      (d.dev_count ≤ 0 → d1.dev_count ≤ 1) ∧
      ∀ i, 1 ≤ i → d1.cal_data[i]? = d.cal_data[i]?) := by
  have hloop : ∀ b : List Char,
      ∃ d1, fsm_read_efsdata_loop b (fuel + 2) { d with dev_count := 0 } 0 = some d1 ∧
        (d1.dev_count = 0 ∨ d1.dev_count = 1) ∧
        ∀ i, 1 ≤ i → d1.cal_data[i]? = d.cal_data[i]? := by
    intro b
    obtain ⟨d1, e, hc, hs⟩ := read_loop_two_scans b { d with dev_count := 0 } fuel
    refine ⟨d1, e, ?_, ?_⟩
    · rcases hc with hc | hc
      · exact Or.inl hc
      · exact Or.inr (by rw [hc]; rfl)
    · intro i hi
      exact hs i (by simp only [Int.toNat_zero]; omega)
  refine ⟨?_, ?_, hloop buf, ?_⟩
  · by_cases h : sscanf_record (cstr buf 0) = []
    · rw [h]; simp
    · obtain ⟨_, _, _, _, h3, _⟩ := sscanf_record_shape (cstr buf 0) h
      exact h3
  · intro h
    obtain ⟨c, rest, e, hc⟩ := after_match_num_char buf h
    refine ⟨?_, second_scan_fails buf h⟩
    rw [e]
    simp only [List.head?_cons, ne_eq, Option.some.injEq]
    exact num_char_ne_bracket c hc
  · unfold fsm_read_efsdata
    simp only
    by_cases hpos : d.dev_count > 0
    · rw [if_pos hpos]
      exact ⟨_, d, rfl, rfl, rfl, fun h => by omega, fun _ _ => rfl⟩
    · rw [if_neg hpos]
      have hle : d.dev_count ≤ 1 := by omega
      cases ho : env.open_fail with
      | some e0 => exact ⟨_, d, rfl, rfl, rfl, fun _ => hle, fun _ _ => rfl⟩
      | none =>
        cases file with
        | none => exact ⟨_, d, rfl, rfl, rfl, fun _ => hle, fun _ _ => rfl⟩
        | some content =>
          simp only
          split
          · exact ⟨_, d, rfl, rfl, rfl, fun _ => hle, fun _ _ => rfl⟩
          · obtain ⟨d1, e, hc, hs⟩ :=
              hloop (mem_write (zero_buf S) 0 (content.take (S - 1)))
            rw [e]
            refine ⟨_, d1, rfl, rfl, rfl, fun _ => ?_, hs⟩
            rcases hc with hc | hc <;> omega

end Fsm
